import Mathlib

/-!
Verification of the schema-driven persistence engine (save/delete with
natural-key coalescing, foreign-key resolution, polymorphic story-link
cleanup) and of the change-target chain resolver.

The definitions below are a shallow embedding of `src/save.ts`,
`src/schemas.ts` and the change-target computation in `src/etl.ts`.
JavaScript records are modelled as association lists of JSON-like values,
the SQLite store as named tables of rows, and every `throw` as an
explicit error value.
-/

namespace Easy


/-- A JSON-like runtime value (the `unknown` values of the TypeScript source). -/
inductive JVal where
  | null
  | bool (b : Bool)
  | num (n : Int)
  | str (s : String)
  | arr (elems : List JVal)
  | obj (fields : List (String × JVal))
deriving Repr, Inhabited

/-- A JavaScript object / record: ordered fields, unique keys by construction
of the operations below (`Record<string, unknown>` in the source). -/
abbrev Rec := List (String × JVal)

/-- Property lookup `o[k]`: `none` models `undefined`. -/
def objGet {α : Type} (o : List (String × α)) (k : String) : Option α :=
  (o.find? (fun p => p.1 == k)).map (fun p => p.2)

/-- Property assignment `o[k] = v` (JS semantics: overwrite in place —
the key keeps its position — else append). -/
def setPair {α : Type} : List (String × α) → String → α → List (String × α)
  | [], k, v => [(k, v)]
  | p :: rest, k, v => if p.1 == k then (k, v) :: rest else p :: setPair rest k v

/-- Property removal `delete o[k]`. -/
def erasePair {α : Type} : List (String × α) → String → List (String × α)
  | [], _ => []
  | p :: rest, k => if p.1 == k then erasePair rest k else p :: erasePair rest k

/-- Object spread `\x7b...a, ...b\x7d`: fields of `b` override fields of `a`. -/
def objMerge {α : Type} (a b : List (String × α)) : List (String × α) :=
  b.foldl (fun acc p => setPair acc p.1 p.2) a

/-- JavaScript truthiness. -/
def truthy : JVal → Bool
  | .null => false
  | .bool b => b
  | .num n => n != 0
  | .str s => s != ""
  | .arr _ => true
  | .obj _ => true

/-- Truthiness of a possibly-absent property (`undefined` is falsy). -/
def truthyOpt : Option JVal → Bool
  | none => false
  | some v => truthy v

mutual

/-- JavaScript `String(v)` conversion. -/
def jvalToString : JVal → String
  | .null => "null"
  | .bool b => cond b "true" "false"
  | .num n => toString n
  | .str s => s
  | .arr xs => String.intercalate "," (jvalToStringList xs)
  | .obj _ => "[object Object]"

/-- `String` conversion of each array element. -/
def jvalToStringList : List JVal → List String
  | [] => []
  | x :: xs => jvalToString x :: jvalToStringList xs

end


/-- `String(o[k])`; JavaScript renders a missing property as "undefined". -/
def stringOfProp (o : Rec) (k : String) : String :=
  match objGet o k with
  | some v => jvalToString v
  | none => "undefined"

/-- JavaScript `Number(v)` conversion (only the cases the source exercises). -/
def jvalToNumber : JVal → Int
  | .null => 0
  | .bool b => cond b 1 0
  | .num n => n
  | .str s => (s.toInt?).getD 0
  | .arr _ => 0
  | .obj _ => 0

mutual

/-- `JSON.stringify` for the argument-list values the source serializes. -/
def jsonStringify : JVal → String
  | .null => "null"
  | .bool b => cond b "true" "false"
  | .num n => toString n
  | .str s => "\"" ++ s ++ "\""
  | .arr xs => "[" ++ String.intercalate "," (jsonStringifyList xs) ++ "]"
  | .obj fs => "\x7b" ++ String.intercalate "," (jsonStringifyFields fs) ++ "\x7d"

/-- `JSON.stringify` of each array element. -/
def jsonStringifyList : List JVal → List String
  | [] => []
  | x :: xs => jsonStringify x :: jsonStringifyList xs

/-- `JSON.stringify` of each object field. -/
def jsonStringifyFields : List (String × JVal) → List String
  | [] => []
  | (k, v) :: xs => ("\"" ++ k ++ "\":" ++ jsonStringify v) :: jsonStringifyFields xs

end


/-- Whether a `JVal` is a string (`typeof val === "string"`). -/
def JVal.isStr : JVal → Bool
  | .str _ => true
  | _ => false

/-- Character-level body of `jsSplitDot`. -/
def splitDotAux : List Char → List Char → List String
  | [], acc => [String.mk acc.reverse]
  | c :: rest, acc =>
    if c == '.' then String.mk acc.reverse :: splitDotAux rest []
    else splitDotAux rest (c :: acc)

/-- JavaScript `s.split(".")`: every occurrence of the separator splits,
empty pieces included; the empty string yields `[""]`. -/
def jsSplitDot (s : String) : List String := splitDotAux s.data []

/-- JavaScript `s.includes(".")`. -/
def jsContainsDot (s : String) : Bool := s.data.contains '.'

mutual

/-- Nesting depth of a JSON value (used only to supply recursion fuel). -/
def jdepth : JVal → Nat
  | .null => 0
  | .bool _ => 0
  | .num _ => 0
  | .str _ => 0
  | .arr xs => 1 + ldepth xs
  | .obj fs => 1 + rdepth fs

/-- Maximum depth of the elements of an array. -/
def ldepth : List JVal → Nat
  | [] => 0
  | x :: xs => max (jdepth x) (ldepth xs)

/-- Maximum depth of the values of an object. -/
def rdepth : List (String × JVal) → Nat
  | [] => 0
  | (_, v) :: xs => max (jdepth v) (rdepth xs)

end


-- ### The SQLite store

/-- A value stored in (or bound into) the database. -/
inductive DbVal where
  | null
  | int (n : Int)
  | text (s : String)
deriving Repr, DecidableEq, Inhabited

/-- SQL equality used by `WHERE col = ?`: `NULL` compares equal to nothing. -/
def dbEq : DbVal → DbVal → Bool
  | .int a, .int b => a == b
  | .text a, .text b => a == b
  | _, _ => false

/-- Binding a JS value as a SQL parameter. -/
def toDb : JVal → DbVal
  | .null => .null
  | .bool b => .int (cond b 1 0)
  | .num n => .int n
  | .str s => .text s
  | .arr _ => .null
  | .obj _ => .null

/-- A table row: surrogate id plus named cells. -/
structure Row where
  id : Nat
  cells : List (String × DbVal)
deriving Repr, DecidableEq, Inhabited

/-- A table: rows in insertion order plus the next surrogate id. -/
structure Table where
  rows : List Row
  nextId : Nat
deriving Repr, DecidableEq, Inhabited

/-- The database: named tables. -/
abbrev Store := List (String × Table)

def emptyTable : Table := ⟨[], 1⟩

/-- The named table of the store (a fresh empty table if absent). -/
def getTable : Store → String → Table
  | [], _ => emptyTable
  | hd :: tl, name => if hd.1 == name then hd.2 else getTable tl name

/-- Replace the named table (appending it if absent). -/
def setTable : Store → String → Table → Store
  | [], name, t => [(name, t)]
  | hd :: tl, name, t =>
    if hd.1 == name then (name, t) :: tl else hd :: setTable tl name t

/-- Does a row satisfy an equality condition list (`WHERE c1 = ? AND c2 = ?`)? -/
def matchesWhere (r : Row) (conds : List (String × DbVal)) : Bool :=
  conds.all (fun c =>
    match objGet r.cells c.1 with
    | some w => dbEq w c.2
    | none => dbEq .null c.2)

/-- `SELECT id FROM table WHERE ... LIMIT 1` — first matching row in stored order. -/
def selectIdWhere (store : Store) (table : String) (conds : List (String × DbVal)) : Option Nat :=
  ((getTable store table).rows.find? (fun r => matchesWhere r conds)).map (fun r => r.id)

/-- `SELECT * FROM table WHERE id = ?`. -/
def selectById (store : Store) (table : String) (i : Nat) : Option Row :=
  (getTable store table).rows.find? (fun r => r.id == i)

/-- `INSERT INTO table ...` returning the last-inserted surrogate id. -/
def insertRow (store : Store) (table : String) (cells : List (String × DbVal)) :
    Store × Nat :=
  let t := getTable store table
  (setTable store table ⟨t.rows ++ [⟨t.nextId, cells⟩], t.nextId + 1⟩, t.nextId)

/-- Apply a SET list to the cells of a row, left to right. -/
def applySets (cells : List (String × DbVal)) (sets : List (String × DbVal)) :
    List (String × DbVal) :=
  sets.foldl (fun cs c => setPair cs c.1 c.2) cells

/-- `UPDATE table SET ... WHERE id = ?`. -/
def updateRow (store : Store) (table : String) (i : Nat) (sets : List (String × DbVal)) :
    Store :=
  let t := getTable store table
  setTable store table
    ⟨t.rows.map (fun r => if r.id == i then ⟨r.id, applySets r.cells sets⟩ else r), t.nextId⟩

/-- `DELETE FROM table WHERE ...`. -/
def deleteWhere (store : Store) (table : String) (conds : List (String × DbVal)) : Store :=
  let t := getTable store table
  setTable store table ⟨t.rows.filter (fun r => !matchesWhere r conds), t.nextId⟩

-- ### Schema registry (src/schemas.ts)

structure SimpleFk where
  table : String
  lookupColumn : String
deriving Repr, DecidableEq

structure CompoundFk where
  parentTable : String
  parentLookupColumn : String
  parentIdColumn : String
  table : String
  lookupColumn : String
deriving Repr, DecidableEq

inductive FkResolve where
  | simple (s : SimpleFk)
  | compound (c : CompoundFk)
deriving Repr, DecidableEq

structure FkRule where
  field : String
  column : String
  resolve : FkResolve
deriving Repr, DecidableEq

structure ChildDef where
  key : String
  schema : String
  parentFkColumn : String
  shorthandField : Option String := none
deriving Repr, DecidableEq

structure SchemaDefinition where
  table : String
  naturalKey : List String
  columns : List (String × String)
  fks : List FkRule
  children : List ChildDef := []
  defaults : List (String × JVal) := []
  booleans : List String := []
deriving Repr

/-- Every error the engine can raise (each `throw new Error(...)` of the source). -/
inductive SaveErr where
  | unknownSchema (name : String)
  | notFound (table : String) (value : String)
  | notFoundScoped (table : String) (value : String) (parent : String)
  | malformed (value : String)
  | parentExpansionNotFound (name : String)
  | metadataRequires
  | targetNotFound (kind : String) (name : String)
  | targetNotFoundScoped (kind : String) (name : String) (parent : String)
  | unknownTargetType (t : String)
  | checkDepInvalidMethod (m : String)
  | checkDepNotFound (what : String) (name : String)
  | checkDepRequires
  | missingParentRow
  | noNaturalKey
  | fuelOut
deriving Repr, DecidableEq

/-- `resolveFk` of src/schemas.ts: resolve a raw string against an FK rule. -/
def resolveFk (store : Store) (rule : FkRule) (value : String) : Except SaveErr Nat :=
  match rule.resolve with
  | .simple s =>
    match selectIdWhere store s.table [(s.lookupColumn, .text value)] with
    | some i => .ok i
    | none => .error (.notFound s.table value)
  | .compound c =>
    let parts := jsSplitDot value
    if parts.length == 2 then
      let parentName := parts.getD 0 ""
      let childName := parts.getD 1 ""
      match selectIdWhere store c.parentTable [(c.parentLookupColumn, .text parentName)] with
      | none => .error (.notFound c.parentTable parentName)
      | some parentId =>
        match selectIdWhere store c.table
            [(c.parentIdColumn, .int parentId), (c.lookupColumn, .text childName)] with
        | none => .error (.notFoundScoped c.table childName parentName)
        | some i => .ok i
    else .error (.malformed value)

-- ### The schema registry (the `SCHEMAS` constant of src/schemas.ts)

/-- The compound `method` FK shared by publish/notification/permission/check. -/
def methodFkCompound : FkResolve :=
  .compound ⟨"entities", "name", "entity_id", "methods", "name"⟩

/-- The `entity` schema of src/schemas.ts. -/
def entitySchema : SchemaDefinition where
  table := "entities"
  naturalKey := ["name"]
  columns := [("name", "name")]
  fks := []
  children := [⟨"fields", "field", "entity_id", none⟩, ⟨"methods", "method", "entity_id", none⟩]

/-- The `field` schema of src/schemas.ts. -/
def fieldSchema : SchemaDefinition where
  table := "fields"
  naturalKey := ["entity", "name"]
  columns := [("name", "name"), ("type", "type")]
  fks := [⟨"entity", "entity_id", .simple ⟨"entities", "name"⟩⟩]
  defaults := [("type", .str "string")]

/-- The `relation` schema of src/schemas.ts. -/
def relationSchema : SchemaDefinition where
  table := "relations"
  naturalKey := ["from", "to", "label"]
  columns := [("label", "label"), ("cardinality", "cardinality")]
  fks := [⟨"from", "from_entity_id", .simple ⟨"entities", "name"⟩⟩,
          ⟨"to", "to_entity_id", .simple ⟨"entities", "name"⟩⟩]
  defaults := [("label", .str ""), ("cardinality", .str "*")]

/-- The `story` schema of src/schemas.ts. -/
def storySchema : SchemaDefinition where
  table := "stories"
  naturalKey := ["actor", "action"]
  columns := [("actor", "actor"), ("action", "action"), ("description", "description")]
  fks := []
  defaults := [("description", .str "")]
  children := [⟨"links", "_story_link", "story_id", none⟩]

/-- The `document` schema of src/schemas.ts. -/
def documentSchema : SchemaDefinition where
  table := "documents"
  naturalKey := ["name"]
  columns := [("name", "name"), ("collection", "collection"), ("public", "public"),
              ("fetch", "fetch"), ("description", "description")]
  fks := [⟨"entity", "entity_id", .simple ⟨"entities", "name"⟩⟩]
  defaults := [("collection", .bool false), ("public", .bool false),
               ("fetch", .str "select"), ("description", .str "")]
  booleans := ["collection", "public"]
  children := [⟨"expansions", "expansion", "document_id", none⟩]

/-- The `expansion` schema of src/schemas.ts. -/
def expansionSchema : SchemaDefinition where
  table := "expansions"
  naturalKey := ["document", "name"]
  columns := [("name", "name"), ("foreign_key", "foreign_key"),
              ("belongs_to", "belongs_to"), ("shallow", "shallow")]
  fks := [⟨"document", "document_id", .simple ⟨"documents", "name"⟩⟩,
          ⟨"entity", "entity_id", .simple ⟨"entities", "name"⟩⟩]
  defaults := [("belongs_to", .bool false), ("shallow", .bool false)]
  booleans := ["belongs_to", "shallow"]
  children := [⟨"expansions", "expansion", "parent_expansion_id", none⟩]

/-- The `method` schema of src/schemas.ts. -/
def methodSchema : SchemaDefinition where
  table := "methods"
  naturalKey := ["entity", "name"]
  columns := [("name", "name"), ("args", "args"), ("return_type", "return_type"),
              ("auth_required", "auth_required")]
  fks := [⟨"entity", "entity_id", .simple ⟨"entities", "name"⟩⟩]
  defaults := [("args", .str "[]"), ("return_type", .str "boolean"), ("auth_required", .bool true)]
  booleans := ["auth_required"]
  children := [⟨"publishes", "publish", "method_id", some "property"⟩,
               ⟨"permissions", "permission", "method_id", some "path"⟩,
               ⟨"notifications", "notification", "method_id", none⟩]

/-- The `publish` schema of src/schemas.ts. -/
def publishSchema : SchemaDefinition where
  table := "publishes"
  naturalKey := ["method", "property"]
  columns := [("property", "property")]
  fks := [⟨"method", "method_id", methodFkCompound⟩]

/-- The `notification` schema of src/schemas.ts. -/
def notificationSchema : SchemaDefinition where
  table := "notifications"
  naturalKey := ["method", "channel"]
  columns := [("channel", "channel"), ("payload", "payload"), ("recipients", "recipients")]
  fks := [⟨"method", "method_id", methodFkCompound⟩]
  defaults := [("payload", .str "\x7b\x7d")]

/-- The `permission` schema of src/schemas.ts. -/
def permissionSchema : SchemaDefinition where
  table := "method_permissions"
  naturalKey := ["method", "path"]
  columns := [("path", "path"), ("description", "description")]
  fks := [⟨"method", "method_id", methodFkCompound⟩]
  defaults := [("description", .str "")]

/-- The `checklist` schema of src/schemas.ts. -/
def checklistSchema : SchemaDefinition where
  table := "checklists"
  naturalKey := ["name"]
  columns := [("name", "name"), ("description", "description")]
  fks := []
  defaults := [("description", .str "")]
  children := [⟨"checks", "check", "checklist_id", none⟩]

/-- The `check` schema of src/schemas.ts. -/
def checkSchema : SchemaDefinition where
  table := "checks"
  naturalKey := ["checklist", "actor", "method"]
  columns := [("actor", "actor"), ("action", "action"), ("description", "description"),
              ("confirmed", "confirmed"), ("seq", "seq")]
  fks := [⟨"checklist", "checklist_id", .simple ⟨"checklists", "name"⟩⟩,
          ⟨"method", "method_id", methodFkCompound⟩]
  defaults := [("action", .str "can"), ("description", .str ""),
               ("confirmed", .num 0), ("seq", .num 0)]
  children := [⟨"depends_on", "_check_dep", "check_id", none⟩]

/-- The `metadata` schema of src/schemas.ts. -/
def metadataSchema : SchemaDefinition where
  table := "metadata"
  naturalKey := ["key"]
  columns := [("key", "key"), ("value", "value")]
  fks := []

/-- The internal `_story_link` child schema of src/schemas.ts. -/
def storyLinkSchema : SchemaDefinition where
  table := "story_links"
  naturalKey := ["_parent_id", "type", "name"]
  columns := [("target_type", "target_type")]
  fks := []

/-- The internal `_check_dep` child schema of src/schemas.ts. -/
def checkDepSchema : SchemaDefinition where
  table := "check_deps"
  naturalKey := ["_parent_id", "depends_on_id"]
  columns := []
  fks := []

/-- `SCHEMAS` of src/schemas.ts, entry for entry. -/
def SCHEMAS : List (String × SchemaDefinition) := [
  ("entity", entitySchema), ("field", fieldSchema), ("relation", relationSchema),
  ("story", storySchema), ("document", documentSchema), ("expansion", expansionSchema),
  ("method", methodSchema), ("publish", publishSchema), ("notification", notificationSchema),
  ("permission", permissionSchema), ("checklist", checklistSchema), ("check", checkSchema),
  ("metadata", metadataSchema), ("_story_link", storyLinkSchema), ("_check_dep", checkDepSchema)]

-- ### Polymorphic target resolution (resolveTarget of src/save.ts)

/-- `resolveTarget`: resolve a story-link target `(type, name)` to a surrogate id. -/
def resolveTarget (store : Store) (type name : String) : Except SaveErr Nat :=
  if type == "entity" then
    match selectIdWhere store "entities" [("name", .text name)] with
    | some i => .ok i
    | none => .error (.targetNotFound "entity" name)
  else if type == "document" then
    match selectIdWhere store "documents" [("name", .text name)] with
    | some i => .ok i
    | none => .error (.targetNotFound "document" name)
  else if type == "method" then
    if jsContainsDot name then
      let parts := jsSplitDot name
      let ent := parts.getD 0 ""
      let meth := parts.getD 1 ""
      match selectIdWhere store "entities" [("name", .text ent)] with
      | none => .error (.targetNotFound "entity" ent)
      | some eid =>
        match selectIdWhere store "methods" [("entity_id", .int (eid : Int)), ("name", .text meth)] with
        | none => .error (.targetNotFoundScoped "method" meth ent)
        | some mid => .ok mid
    else
      match selectIdWhere store "methods" [("name", .text name)] with
      | some i => .ok i
      | none => .error (.targetNotFound "method" name)
  else if type == "notification" then
    match selectIdWhere store "notifications" [("channel", .text name)] with
    | some i => .ok i
    | none => .error (.targetNotFound "notification" name)
  else .error (.unknownTargetType type)

-- ### Save engine (src/save.ts)

/-- The body of the FK-resolution loop (step 1 of `doSave`, also used by
`del`): fields that are absent or null are skipped, a present field that
fails to resolve aborts. -/
def resolveFksGo (store : Store) (obj : Rec) :
    List FkRule → List (String × JVal) → Except SaveErr (List (String × JVal))
  | [], acc => .ok acc
  | fk :: rest, acc =>
    match objGet obj fk.field with
    | none => resolveFksGo store obj rest acc
    | some .null => resolveFksGo store obj rest acc
    | some v =>
      match resolveFk store fk (jvalToString v) with
      | .ok i => resolveFksGo store obj rest (setPair acc fk.column (.num (i : Int)))
      | .error e => .error e

/-- Shared FK-resolution loop (step 1 of `doSave`, also used by `del`). -/
def resolveFks (store : Store) (fks : List FkRule) (obj : Rec) :
    Except SaveErr (List (String × JVal)) :=
  resolveFksGo store obj fks []

/-- Step 2 of `doSave`: project scalar columns present in the record,
coercing boolean-coded fields to 0/1 and serializing non-string `args`. -/
def buildColValues (schema : SchemaDefinition) (obj : Rec) : List (String × JVal) :=
  schema.columns.foldl (fun acc p =>
    match objGet obj p.1 with
    | none => acc
    | some v =>
      let v := if schema.booleans.contains p.1 then JVal.num (cond (truthy v) 1 0) else v
      let v := if p.2 == "args" && !v.isStr then JVal.str (jsonStringify v) else v
      setPair acc p.2 v) []

/-- Step 4 of `doSave`: the natural-key lookup tuple. A natural-key field
whose FK did not resolve, or that has no column, is silently skipped. -/
def buildWhere (schema : SchemaDefinition) (resolved colValues : List (String × JVal))
    (parent? : Option (Nat × String)) : List (String × DbVal) :=
  schema.naturalKey.foldl (fun acc nk =>
    let fallback : List (String × DbVal) :=
      if nk == "_parent_id" then
        match parent? with
        | some (pid, pcol) => if pcol != "" then acc ++ [(pcol, .int (pid : Int))] else acc
        | none => acc
      else
        match objGet schema.columns nk with
        | some col =>
          if col != "" then
            let v : Option JVal :=
              match objGet colValues col with
              | some .null => objGet schema.defaults nk
              | some v => some v
              | none => objGet schema.defaults nk
            acc ++ [(col, toDb (v.getD .null))]
          else acc
        | none => acc
    match schema.fks.find? (fun f => f.field == nk) with
    | some fkRule =>
      match objGet resolved fkRule.column with
      | some v => acc ++ [(fkRule.column, toDb v)]
      | none => fallback
    | none => fallback) []

/-- `SELECT COALESCE(MAX(seq), 0) FROM checks WHERE checklist_id = ?`. -/
def maxSeq (store : Store) (checklistId : Int) : Int :=
  let seqs := (getTable store "checks").rows.filterMap (fun r =>
    match objGet r.cells "checklist_id" with
    | some w =>
      if dbEq w (.int checklistId) then
        match objGet r.cells "seq" with
        | some (DbVal.int n) => some n
        | _ => none
      else none
    | none => none)
  match seqs.max? with
  | some m => m
  | none => 0

/-- First element of the JS nullish-coalescing chain `a ?? b ?? ...`. -/
def nonNullish (o : Option JVal) : Option JVal :=
  match o with
  | some .null => none
  | o => o

/-- `doSaveStoryLink` of src/save.ts: idempotent insert of a polymorphic
story link. A missing parent id (only possible for a direct top-level call)
is the not-null constraint failure of the source. -/
def doSaveStoryLink (store : Store) (obj : Rec) (parent? : Option Nat) :
    Except SaveErr (Store × Nat) :=
  match parent? with
  | none => .error .missingParentRow
  | some storyId => do
    let type := stringOfProp obj "type"
    let name := stringOfProp obj "name"
    let targetId ← resolveTarget store type name
    let cells : List (String × DbVal) :=
      [("story_id", .int (storyId : Int)), ("target_type", .text type),
       ("target_id", .int (targetId : Int))]
    match selectIdWhere store "story_links" cells with
    | some i => .ok (store, i)
    | none =>
      let p := insertRow store "story_links" cells
      .ok p

/-- `doSaveCheckDep` of src/save.ts: resolve a check dependency either by id
or by `(checklist, actor, method)` natural key, then insert idempotently. -/
def doSaveCheckDep (store : Store) (obj : Rec) (parent? : Option Nat) :
    Except SaveErr (Store × Nat) :=
  match parent? with
  | none => .error .missingParentRow
  | some checkId => do
    let dep0 := ((nonNullish (objGet obj "depends_on_id")).or
      ((nonNullish (objGet obj "depends_on")).or (nonNullish (objGet obj "id"))))
    let depId : Int := jvalToNumber (dep0.getD (.num 0))
    let depId ←
      if depId == 0 && truthyOpt (objGet obj "checklist") && truthyOpt (objGet obj "actor")
          && truthyOpt (objGet obj "method") then do
        let parts := jsSplitDot (stringOfProp obj "method")
        if parts.length != 2 then .error (.checkDepInvalidMethod (stringOfProp obj "method"))
        else
          match selectIdWhere store "entities" [("name", .text (parts.getD 0 ""))] with
          | none => .error (.checkDepNotFound "entities" (parts.getD 0 ""))
          | some eid =>
            match selectIdWhere store "methods"
                [("entity_id", .int (eid : Int)), ("name", .text (parts.getD 1 ""))] with
            | none => .error (.checkDepNotFound "methods" (stringOfProp obj "method"))
            | some mid =>
              match selectIdWhere store "checklists"
                  [("name", .text (stringOfProp obj "checklist"))] with
              | none => .error (.checkDepNotFound "checklists" (stringOfProp obj "checklist"))
              | some clid =>
                match selectIdWhere store "checks"
                    [("checklist_id", .int (clid : Int)),
                     ("actor", .text (stringOfProp obj "actor")),
                     ("method_id", .int (mid : Int))] with
                | none => .error (.checkDepNotFound "checks" (stringOfProp obj "actor"))
                | some chid => pure (chid : Int)
      else pure depId
    if depId == 0 then .error .checkDepRequires
    else
      let cells : List (String × DbVal) :=
        [("check_id", .int (checkId : Int)), ("depends_on_id", .int depId)]
      match selectIdWhere store "check_deps" cells with
      | some i => .ok (store, i)
      | none => .ok (insertRow store "check_deps" cells)

/-- A stored cell read back as a JS value. -/
def dbToJVal : DbVal → JVal
  | .null => .null
  | .int n => .num n
  | .text s => .str s

/-- `expandShorthand` of src/save.ts. A non-object item without a declared
shorthand is cast to a record whose property reads are all undefined. -/
def expandShorthand (cd : ChildDef) (item : JVal) : Rec :=
  match item, cd.shorthandField with
  | .str s, some f => [(f, .str s)]
  | .num n, some f => [(f, .num n)]
  | .obj fs, _ => fs
  | _, _ => []

/-- Step 3b of `doSave`: for an expansion with a `parent` field, resolve
`parent_expansion_id` among the expansions of the same document. -/
def expansionParentStep (store : Store) (schemaName : String) (obj : Rec)
    (parent? : Option (Nat × String)) (resolved : List (String × JVal)) :
    Except SaveErr (List (String × JVal)) :=
  if schemaName == "expansion" && truthyOpt (objGet obj "parent") then
    let docId : Option Int :=
      match objGet resolved "document_id" with
      | some v => some (jvalToNumber v)
      | none => parent?.map (fun p => (p.1 : Int))
    match docId with
    | some d =>
      if d != 0 then
        match selectIdWhere store "expansions"
            [("document_id", .int d), ("name", .text (stringOfProp obj "parent"))] with
        | some pid2 => .ok (setPair resolved "parent_expansion_id" (.num (pid2 : Int)))
        | none => .error (.parentExpansionNotFound (stringOfProp obj "parent"))
      else .ok resolved
    | none => .ok resolved
  else .ok resolved

/-- Step 5 of `doSave`: auto-increment `seq` for a check saved without one. -/
def seqStep (store : Store) (schemaName : String) (obj : Rec)
    (resolved colValues : List (String × JVal)) : List (String × JVal) :=
  if schemaName == "check" && (objGet obj "seq").isNone
      && truthyOpt (objGet resolved "checklist_id") then
    setPair colValues "seq"
      (.num (maxSeq store (jvalToNumber ((objGet resolved "checklist_id").getD .null)) + 1))
  else colValues

/-- Step 5b of `doSave`: the `denied` shorthand for checks. -/
def deniedStep (schemaName : String) (obj : Rec) (colValues : List (String × JVal)) :
    List (String × JVal) :=
  if schemaName == "check" && truthyOpt (objGet obj "denied") then
    setPair colValues "action" (.str "denied")
  else colValues

/-- Step 6a of `doSave`: the UPDATE SET list — provided columns only, with
every natural-key column and the parent-linkage column removed. -/
def updateColsOf (whereConds : List (String × DbVal)) (parent? : Option (Nat × String))
    (colValues resolved : List (String × JVal)) : List (String × JVal) :=
  let u := objMerge colValues resolved
  let u := whereConds.foldl (fun acc c => erasePair acc c.1) u
  match parent? with
  | some (_, pcol) => if pcol != "" then erasePair u pcol else u
  | none => u

/-- Step 6b of `doSave`: the INSERT column list — schema defaults for
columns not provided, overlaid by provided scalars, resolved FKs, and the
parent linkage. -/
def insertCellsOf (schema : SchemaDefinition) (colValues resolved : List (String × JVal))
    (parent? : Option (Nat × String)) : List (String × JVal) :=
  let insertCols := schema.defaults.foldl (fun acc d =>
    match objGet schema.columns d.1 with
    | some sqlCol =>
      if sqlCol != "" && (objGet colValues sqlCol).isNone then
        setPair acc sqlCol
          (if schema.booleans.contains d.1 then JVal.num (cond (truthy d.2) 1 0) else d.2)
      else acc
    | none => acc) []
  let insertCols := objMerge insertCols colValues
  let insertCols := objMerge insertCols resolved
  match parent? with
  | some (pid, pcol) =>
    if pcol != "" then setPair insertCols pcol (.num (pid : Int)) else insertCols
  | none => insertCols

/-- Steps 3b-6 of `doSave` for the generic schemas: parent-expansion
resolution, natural-key lookup, seq/denied adjustments, the metadata
replace, and the UPDATE-or-INSERT on the matched table row. -/
def rowPhase (store : Store) (schemaName : String) (schema : SchemaDefinition) (obj : Rec)
    (parent? : Option (Nat × String)) (resolved colValues : List (String × JVal)) :
    Except SaveErr (Store × Nat) :=
  match expansionParentStep store schemaName obj parent? resolved with
  | .error e => .error e
  | .ok resolved =>
    -- 4. Build natural key WHERE clause
    let whereConds := buildWhere schema resolved colValues parent?
    let colValues := seqStep store schemaName obj resolved colValues
    let colValues := deniedStep schemaName obj colValues
    -- 5c. Special: metadata uses INSERT OR REPLACE (no id column)
    if schemaName == "metadata" then
      if !truthyOpt (objGet obj "key") || (objGet obj "value").isNone then
        .error .metadataRequires
      else
        let k := toDb ((objGet obj "key").getD .null)
        let v := toDb ((objGet obj "value").getD .null)
        let store := deleteWhere store "metadata" [("key", k)]
        let p := insertRow store "metadata" [("key", k), ("value", v)]
        .ok (p.1, 0)
    else
      -- 5b. Look up existing row
      match (if whereConds.isEmpty then none
             else selectIdWhere store schema.table whereConds) with
      | some rowId =>
        -- 6a. UPDATE — only provided columns (coalesce)
        let u := updateColsOf whereConds parent? colValues resolved
        if u.isEmpty then .ok (store, rowId)
        else .ok (updateRow store schema.table rowId (u.map (fun p => (p.1, toDb p.2))), rowId)
      | none =>
        -- 6b. INSERT — all provided values + defaults
        .ok (insertRow store schema.table
          ((insertCellsOf schema colValues resolved parent?).map (fun p => (p.1, toDb p.2))))

/-- Step 7 of `doSave`: the child-array loop, abstracted over the recursive
call (`rec` is `doSave` one fuel level down). -/
def childFold (schemas : List (String × SchemaDefinition))
    (rec : Store → String → SchemaDefinition → Rec → Option (Nat × String) →
      Except SaveErr (Store × Nat))
    (schemaName : String) (obj : Rec) (rowId : Nat) (cds : List ChildDef) (st : Store) :
    Except SaveErr Store :=
  cds.foldlM (fun st childDef =>
    match objGet obj childDef.key with
    | some (.arr items) =>
      match objGet schemas childDef.schema with
      | none => pure st
      | some childSchema =>
        items.foldlM (fun st2 item =>
          let childObj := expandShorthand childDef item
          -- Special: nested expansions need document_id propagated
          let childObj :=
            if childDef.schema == "expansion" && schemaName == "expansion" then
              match selectById st2 "expansions" rowId with
              | some prow =>
                setPair childObj "_document_id"
                  (dbToJVal (((objGet prow.cells "document_id")).getD .null))
              | none => childObj
            else childObj
          match rec st2 childDef.schema childSchema childObj
              (some (rowId, childDef.parentFkColumn)) with
          | .error e => .error e
          | .ok r => pure r.1) st
    | _ => pure st) st

/-- `doSave` of src/save.ts: the coalescing upsert, fuelled for the child
recursion (the fuel only bounds nesting depth; `save` supplies enough for
any finite record). -/
def doSave (schemas : List (String × SchemaDefinition)) :
    Nat → Store → String → SchemaDefinition → Rec → Option (Nat × String) →
    Except SaveErr (Store × Nat)
  | 0, _, _, _, _, _ => .error .fuelOut
  | fuel + 1, store, schemaName, schema, obj, parent? =>
    -- 1. Resolve FKs
    match resolveFks store schema.fks obj with
    | .error e => .error e
    | .ok resolved =>
      -- Inject parent FK if this is a nested child
      let resolved :=
        match parent? with
        | some (pid, pcol) => if pcol != "" then setPair resolved pcol (.num (pid : Int)) else resolved
        | none => resolved
      -- Special: nested expansion — inject document_id from parent
      let resolved :=
        if schemaName == "expansion" && truthyOpt (objGet obj "_document_id") then
          setPair resolved "document_id" (.num (jvalToNumber ((objGet obj "_document_id").getD .null)))
        else resolved
      -- 2. Build column values (scalars only)
      let colValues := buildColValues schema obj
      -- 3. Handle special schemas
      if schemaName == "_story_link" then
        doSaveStoryLink store obj (parent?.map (fun p => p.1))
      else if schemaName == "_check_dep" then
        doSaveCheckDep store obj (parent?.map (fun p => p.1))
      else
        -- 3b-6: parent-expansion resolution, natural-key lookup, update/insert
        match rowPhase store schemaName schema obj parent? resolved colValues with
        | .error e => .error e
        | .ok pr =>
          -- 7. Process children
          match childFold schemas
              (fun st2 sn sc o p => doSave schemas fuel st2 sn sc o p)
              schemaName obj pr.2 schema.children pr.1 with
          | .error e => .error e
          | .ok store2 => .ok (store2, pr.2)

/-- `save` of src/save.ts: schema lookup plus the all-or-nothing transaction
around `doSave` — an error leaves the store untouched. -/
def save (schemas : List (String × SchemaDefinition)) (store : Store)
    (schemaName : String) (obj : Rec) : Store × Except SaveErr Nat :=
  match objGet schemas schemaName with
  | none => (store, .error (.unknownSchema schemaName))
  | some schema =>
    match doSave schemas (rdepth obj + 1) store schemaName schema obj none with
    | .ok p => (p.1, .ok p.2)
    | .error e => (store, .error e)

-- ### Delete engine (del of src/save.ts)

/-- The natural-key WHERE tuple of `del`: FK resolutions and raw supplied
scalars only (no defaulting, no parent sentinel). -/
def delWhere (schema : SchemaDefinition) (resolved : List (String × JVal)) (obj : Rec) :
    List (String × DbVal) :=
  schema.naturalKey.foldl (fun acc nk =>
    let fallback : List (String × DbVal) :=
      match objGet schema.columns nk with
      | some col =>
        if col != "" then acc ++ [(col, toDb ((objGet obj nk).getD .null))] else acc
      | none => acc
    match schema.fks.find? (fun f => f.field == nk) with
    | some fkRule =>
      match objGet resolved fkRule.column with
      | some v => acc ++ [(fkRule.column, toDb v)]
      | none => fallback
    | none => fallback) []

/-- `del` of src/save.ts: transactional delete by natural key, with
polymorphic story-link cleanup for entity/document/method. An error means
the transaction rolled back: the caller keeps the pre-call store. -/
def del (schemas : List (String × SchemaDefinition)) (store : Store)
    (schemaName : String) (obj : Rec) : Except SaveErr Store :=
  match objGet schemas schemaName with
  | none => .error (.unknownSchema schemaName)
  | some schema => do
    let resolved ← resolveFks store schema.fks obj
    let whereConds := delWhere schema resolved obj
    if whereConds.isEmpty then .error .noNaturalKey
    else
      let store :=
        if schemaName == "entity" || schemaName == "document" || schemaName == "method" then
          match selectIdWhere store schema.table whereConds with
          | some i =>
            deleteWhere store "story_links"
              [("target_type", .text schemaName), ("target_id", .int (i : Int))]
          | none => store
        else store
      pure (deleteWhere store schema.table whereConds)

-- ### Change-target resolution (src/etl.ts, getEntityDetail / getDocumentDetail)

/-- One stored expansion row as read by the change-target queries. -/
structure Exp where
  id : Nat
  name : String
  foreignKey : String
  parentExpansionId : Option Nat
  entityId : Nat
  documentId : Nat
  belongsTo : Bool
deriving Repr, DecidableEq

/-- One stored document row as read by the change-target queries. -/
structure DocRow where
  id : Nat
  name : String
  entityId : Nat
  collection : Bool
deriving Repr, DecidableEq

/-- An entry of an entity's `changes` list. -/
structure ChangeTarget where
  doc : String
  path : Option String
  collection : Bool
  fks : List String
deriving Repr, DecidableEq

/-- An entry of a document's `changedBy` list. -/
structure ChangedBy where
  entity : String
  path : Option String
  fks : List String
deriving Repr, DecidableEq

/-- The `while (cur !== null)` parent-chain walk of src/etl.ts. The source
loop has no hop bound; the fuel argument is the observation depth — a
`none` result means the loop has not finished within `fuel` hops. -/
def walkChain (m : List Exp) :
    Nat → Option Nat → List (String × String) → Option (List (String × String))
  | _, none, acc => some acc
  | 0, some _, _ => none
  | fuel + 1, some cur, acc =>
    match m.find? (fun x => x.id == cur) with
    | none => some acc
    | some p => walkChain m fuel p.parentExpansionId (acc ++ [(p.name, p.foreignKey)])

/-- The root-first `(name, foreign_key)` chain for one expansion row
(`chain.push` then `chain.reverse()` in the source). -/
def chainOf (m : List Exp) (ex : Exp) (fuel : Nat) : Option (List (String × String)) :=
  (walkChain m fuel ex.parentExpansionId [(ex.name, ex.foreignKey)]).map List.reverse

/-- Dotted path of a chain: the `name` fields joined with `.`, root-first. -/
def pathOfChain (chain : List (String × String)) : String :=
  String.intercalate "." (chain.map (fun c => c.1))

/-- Locating keys of a chain: the root edge's foreign key, then the
remaining edges' foreign keys in chain order. -/
def fksOfChain (chain : List (String × String)) : List String :=
  (chain.headD ("", "")).2 :: (chain.drop 1).map (fun c => c.2)

/-- `x.entity_id = ? AND x.belongs_to = 0`: the aggregating expansions of one
entity (the `entityExps` query of `getEntityDetail`). -/
def entityExpsFor (m : List Exp) (eid : Nat) : List Exp :=
  m.filter (fun x => x.entityId == eid && !x.belongsTo)

/-- The `changes` computation of `getEntityDetail` (src/etl.ts 554-601),
instrumented with the originating expansion row (`none` for the root-doc
entries); the source's list is the `ChangeTarget` projection. -/
def entityChangesL (docs : List DocRow) (m : List Exp) (eid : Nat) (fuel : Nat) :
    List (Option Exp × ChangeTarget) :=
  (docs.filter (fun d => d.entityId == eid)).map
      (fun d => (none, ⟨d.name, none, d.collection, ["id"]⟩))
  ++ (entityExpsFor m eid).filterMap (fun ex =>
      match docs.find? (fun d => d.id == ex.documentId) with
      | none => none
      | some d =>
        match chainOf m ex fuel with
        | none => none
        | some chain =>
          some (some ex, ⟨d.name, some (pathOfChain chain), false, fksOfChain chain⟩))

/-- The `changes` list exactly as `getEntityDetail` emits it. -/
def entityChanges (docs : List DocRow) (m : List Exp) (eid : Nat) (fuel : Nat) :
    List ChangeTarget :=
  (entityChangesL docs m eid fuel).map (fun p => p.2)

/-- The `changedBy` computation of `getDocumentDetail` (src/etl.ts 716-758),
instrumented with the originating expansion row; the expansion map is
scoped to the document's own expansions, as in the source. -/
def documentChangedByL (doc : DocRow) (docEntityName : String)
    (entities : List (Nat × String)) (m : List Exp) (fuel : Nat) :
    List (Option Exp × ChangedBy) :=
  (none, ⟨docEntityName, none, ["id"]⟩) ::
  ((m.filter (fun x => x.documentId == doc.id && !x.belongsTo)).filterMap (fun ex =>
    match entities.find? (fun e => e.1 == ex.entityId) with
    | none => none
    | some e =>
      let scopedExps := m.filter (fun x => x.documentId == doc.id)
      match chainOf scopedExps ex fuel with
      | none => none
      | some chain =>
        some (some ex, ⟨e.2, some (pathOfChain chain), fksOfChain chain⟩)))

/-- The `changedBy` list exactly as `getDocumentDetail` emits it. -/
def documentChangedBy (doc : DocRow) (docEntityName : String)
    (entities : List (Nat × String)) (m : List Exp) (fuel : Nat) : List ChangedBy :=
  (documentChangedByL doc docEntityName entities m fuel).map (fun p => p.2)

/-- One hop of the parent-chain walk: `none` when the walk stops at this
cursor (row missing, or row with no parent), the next cursor otherwise. -/
def nextCursor (m : List Exp) (c : Nat) : Option Nat :=
  match m.find? (fun x => x.id == c) with
  | none => none
  | some p => p.parentExpansionId

/-- Iterating the parent-chain walk: `some x` means the walk is still going
after `k` hops, standing at `x`. -/
def orbit (m : List Exp) : Nat → Nat → Option Nat
  | 0, c => some c
  | k + 1, c =>
    match nextCursor m c with
    | none => none
    | some c2 => orbit m k c2

/-- No chain of parent references returns to its starting row (checked only
up to the pigeonhole bound, which suffices and keeps it decidable). -/
def AcyclicParents (m : List Exp) : Prop :=
  ∀ c ∈ m.map (fun x => x.id), ∀ t ∈ List.range m.length, orbit m (t + 1) c ≠ some c

instance (m : List Exp) : Decidable (AcyclicParents m) := by
  unfold AcyclicParents
  infer_instance

-- ### C4: compound FK boundary

/-- A compound FK rule (the `method` rule shared by publish, notification,
permission and check). -/
def compoundDemoRule : FkRule := ⟨"method", "method_id", methodFkCompound⟩

/-- A store holding entity `Alpha` (id 1) with method `beta` (id 1). -/
def c4Store : Store :=
  [("entities", ⟨[⟨1, [("name", .text "Alpha")]⟩], 2⟩),
   ("methods", ⟨[⟨1, [("entity_id", .int 1), ("name", .text "beta")]⟩], 2⟩)]

/-- A record with three valid children and one child whose FK fails. -/
def c5obj : Rec :=
  [("name", .str "Room"),
   ("fields", .arr [.obj [("name", .str "a")], .obj [("name", .str "b")],
     .obj [("name", .str "c")], .obj [("name", .str "d"), ("entity", .str "Nope")]])]

/-- Two expansion rows whose parent references form a 2-cycle. -/
def cycExp1 : Exp := ⟨1, "a", "fa", some 2, 1, 1, false⟩

/-- The second half of the 2-cycle. -/
def cycExp2 : Exp := ⟨2, "b", "fb", some 1, 1, 1, false⟩

/-- The cyclic configuration. -/
def cycExps : List Exp := [cycExp1, cycExp2]

/-- A two-level acyclic configuration: `comments` nested under `tasks`. -/
def demoExps : List Exp :=
  [⟨1, "tasks", "project_id", none, 20, 1, false⟩,
   ⟨2, "comments", "task_id", some 1, 30, 1, false⟩]

-- ### FK-resolution stability

/-- The tables a rule's resolution reads. -/
def fkTables (rule : FkRule) : List String :=
  match rule.resolve with
  | .simple s => [s.table]
  | .compound c => [c.parentTable, c.table]

-- ### C1/C2: coalescing and idempotence — counterexamples

/-- A store with entity `E`, its method `m`, and checklist `CL`. -/
def c1Store : Store :=
  [("entities", ⟨[⟨1, [("name", .text "E")]⟩], 2⟩),
   ("methods", ⟨[⟨1, [("entity_id", .int 1), ("name", .text "m")]⟩], 2⟩),
   ("checklists", ⟨[⟨1, [("name", .text "CL")]⟩], 2⟩)]

/-- First record of the C1 pair: natural key plus a description. -/
def c1R1 : Rec :=
  [("checklist", .str "CL"), ("actor", .str "ann"), ("method", .str "E.m"),
   ("description", .str "first")]

/-- Second record of the C1 pair: same natural key, nothing else. -/
def c1R2 : Rec :=
  [("checklist", .str "CL"), ("actor", .str "ann"), ("method", .str "E.m")]

/-- The store after `save(check, c1R1)`. -/
def c1s1 : Store := (save SCHEMAS c1Store "check" c1R1).1

/-- The store after `save(check, c1R1)` then `save(check, c1R2)`. -/
def c1s2 : Store := (save SCHEMAS c1s1 "check" c1R2).1

/-- The C2 record: a check identified by `(CL, bob, E.m)`, no `seq`. -/
def c2R : Rec :=
  [("checklist", .str "CL"), ("actor", .str "bob"), ("method", .str "E.m")]

/-- The store after the first `save(check, c2R)`. -/
def c2s1 : Store := (save SCHEMAS c1Store "check" c2R).1

/-- The store after the second, identical `save(check, c2R)`. -/
def c2s2 : Store := (save SCHEMAS c2s1 "check" c2R).1

/-- Store for the C1 witness: one checklist row to be coalesced into. -/
def c1wStore : Store :=
  [("checklists", ⟨[⟨3, [("name", .text "CL"), ("description", .text "old")]⟩], 4⟩)]

/-- Record for the C1 witness: same natural key, new description. -/
def c1wObj : Rec := [("name", .str "CL"), ("description", .str "new")]

/-- Record for the C2 witness: a checklist with its natural key and a
description. -/
def c2wObj : Rec := [("name", .str "W"), ("description", .str "d")]

/-- Store after the first witness save: the single inserted checklist. -/
def c2wStore1 : Store :=
  [("checklists", ⟨[⟨1, [("name", .text "W"), ("description", .text "d")]⟩], 2⟩)]

/-- The demo document: `ProjectDoc` (id 1), a collection over entity 10. -/
def demoDocs : List DocRow := [⟨1, "ProjectDoc", 10, true⟩]

/-- The C7 demo document: `D` (id 1) over entity 60. -/
def c7docs : List DocRow := [⟨1, "D", 60, false⟩]

/-- A pure back-reference edge `owner` with an aggregating child `pets`. -/
def c7exps : List Exp :=
  [⟨1, "owner", "owner_id", none, 40, 1, true⟩,
   ⟨2, "pets", "pet_id", some 1, 50, 1, false⟩]

-- ### C3: MissingNaturalKey

/-- A store holding only checklist `CL` (id 1). -/
def c3Store : Store := [("checklists", ⟨[⟨1, [("name", .text "CL")]⟩], 2⟩)]

/-- A check record that leaves the natural-key field `method` unsupplied. -/
def c3obj : Rec := [("checklist", .str "CL"), ("actor", .str "bob")]

/-- A store with entity `E`, its method `m`, one notification on that
method, and one story link targeting `(notification, 1)`. -/
def c8NStore : Store :=
  [("entities", ⟨[⟨1, [("name", .text "E")]⟩], 2⟩),
   ("methods", ⟨[⟨1, [("entity_id", .int 1), ("name", .text "m")]⟩], 2⟩),
   ("notifications", ⟨[⟨1, [("method_id", .int 1), ("channel", .text "c"),
      ("recipients", .text "r")]⟩], 2⟩),
   ("story_links", ⟨[⟨1, [("story_id", .int 1), ("target_type", .text "notification"),
      ("target_id", .int 1)]⟩], 2⟩)]

/-- The same store after deleting the notification: the notification row is
gone but its story link survives. -/
def c8NStoreAfter : Store :=
  [("entities", ⟨[⟨1, [("name", .text "E")]⟩], 2⟩),
   ("methods", ⟨[⟨1, [("entity_id", .int 1), ("name", .text "m")]⟩], 2⟩),
   ("notifications", ⟨[], 2⟩),
   ("story_links", ⟨[⟨1, [("story_id", .int 1), ("target_type", .text "notification"),
      ("target_id", .int 1)]⟩], 2⟩)]

/-- A store with entity `Room` and two story links, one of which targets
`(entity, 1)`. -/
def c8EStore : Store :=
  [("entities", ⟨[⟨1, [("name", .text "Room")]⟩], 2⟩),
   ("story_links", ⟨[⟨1, [("story_id", .int 1), ("target_type", .text "entity"),
      ("target_id", .int 1)]⟩,
     ⟨2, [("story_id", .int 1), ("target_type", .text "document"), ("target_id", .int 1)]⟩], 3⟩)]

/-- `c8EStore` after `delete("entity", (name Room))`: the entity row and its
story link are both gone; the unrelated document link survives. -/
def c8EStoreAfter : Store :=
  [("entities", ⟨[], 2⟩),
   ("story_links", ⟨[⟨2, [("story_id", .int 1), ("target_type", .text "document"),
      ("target_id", .int 1)]⟩], 3⟩)]

/-- A store with two methods both named `go`, owned by different entities:
ids 7 and 9, in that stored order. -/
def c10Store : Store :=
  [("methods", ⟨[⟨7, [("entity_id", .int 1), ("name", .text "go")]⟩,
                 ⟨9, [("entity_id", .int 2), ("name", .text "go")]⟩], 10⟩)]

-- ### Theorems

theorem getTable_setTable_self (s : Store) (n : String) (t : Table) :
    getTable (setTable s n t) n = t := by
  induction s with
  | nil => simp [getTable, setTable]
  | cons hd tl ih =>
    by_cases h : (hd.1 == n) = true
    · simp [getTable, setTable, h]
    · simp [getTable, setTable, h, ih]

theorem getTable_setTable_ne (s : Store) (n n' : String) (t : Table) (h : n' ≠ n) :
    getTable (setTable s n t) n' = getTable s n' := by
  induction s with
  | nil => simp [getTable, setTable, bne_iff_ne, h, Ne.symm h]
  | cons hd tl ih =>
    by_cases hh : (hd.1 == n) = true
    · have h1 : hd.1 = n := by simpa using hh
      have h2 : (n == n') = false := by simpa using (Ne.symm h)
      have h3 : (hd.1 == n') = false := by simp [h1]; exact Ne.symm h
      simp [getTable, setTable, hh, h2, h3]
    · by_cases hh' : (hd.1 == n') = true
      · simp [getTable, setTable, hh, hh']
      · simp [getTable, setTable, hh, hh', ih]

/-- C4 — counterexample. The claim says `MalformedReference` is raised
exactly when the value does not split into two non-empty parts. `"Alpha."`
splits into `["Alpha", ""]` — two parts, the second empty — yet `resolveFk`
does not raise the malformed error: it proceeds to the parent lookup and
fails with NotFound. -/
theorem C4_counterexample :
    resolveFk [] compoundDemoRule "Alpha." = .error (.notFound "entities" "Alpha") ∧
    jsSplitDot "Alpha." = ["Alpha", ""] ∧
    ∀ s, (SaveErr.notFound "entities" "Alpha") ≠ .malformed s := by
  refine ⟨by rfl, by rfl, ?_⟩
  intro s h
  exact SaveErr.noConfusion h

/-- The compound branch of `resolveFk`, with the format guard surfaced. -/
theorem resolveFk_compound_eq (store : Store) (c : CompoundFk) (f col value : String) :
    resolveFk store ⟨f, col, .compound c⟩ value =
      (if ((jsSplitDot value).length == 2) = true then
        match selectIdWhere store c.parentTable
            [(c.parentLookupColumn, .text ((jsSplitDot value).getD 0 ""))] with
        | none => .error (.notFound c.parentTable ((jsSplitDot value).getD 0 ""))
        | some parentId =>
          match selectIdWhere store c.table
              [(c.parentIdColumn, .int (parentId : Int)),
               (c.lookupColumn, .text ((jsSplitDot value).getD 1 ""))] with
          | none => .error (.notFoundScoped c.table ((jsSplitDot value).getD 1 "")
              ((jsSplitDot value).getD 0 ""))
          | some i => .ok i
      else .error (.malformed value)) := rfl

/-- C4 — amended. Resolving a value against a Compound FK rule fails with
`MalformedReference` exactly when the value does not split on `.` into
exactly two parts (no separator, or more than one); the parts are not
checked for emptiness. When the split yields two parts the resolver
proceeds to the parent lookup and then the child lookup scoped by the
parent id, raising NotFound for whichever lookup finds no row. -/
theorem C4_theorem (store : Store) (c : CompoundFk) (f col value : String) :
    ((∃ s, resolveFk store ⟨f, col, .compound c⟩ value = .error (.malformed s)) ↔
      (jsSplitDot value).length ≠ 2) ∧
    ((jsSplitDot value).length = 2 →
      resolveFk store ⟨f, col, .compound c⟩ value =
        match selectIdWhere store c.parentTable
            [(c.parentLookupColumn, .text ((jsSplitDot value).getD 0 ""))] with
        | none => .error (.notFound c.parentTable ((jsSplitDot value).getD 0 ""))
        | some parentId =>
          match selectIdWhere store c.table
              [(c.parentIdColumn, .int (parentId : Int)),
               (c.lookupColumn, .text ((jsSplitDot value).getD 1 ""))] with
          | none => .error (.notFoundScoped c.table ((jsSplitDot value).getD 1 "")
              ((jsSplitDot value).getD 0 ""))
          | some i => .ok i) := by
  rw [resolveFk_compound_eq]
  by_cases hlen : (jsSplitDot value).length = 2
  · rw [if_pos (by simpa using hlen)]
    refine ⟨⟨?_, fun h => absurd hlen h⟩, fun _ => rfl⟩
    rintro ⟨s, hs⟩
    split at hs
    · exact absurd hs (by simp)
    · split at hs
      · exact absurd hs (by simp)
      · exact absurd hs (by simp)
  · rw [if_neg (by simpa using hlen)]
    exact ⟨⟨fun _ => hlen, fun _ => ⟨value, rfl⟩⟩, fun h => absurd h hlen⟩

/-- C4 — witness: at a concrete store, a two-part value proceeds to the two
lookups and succeeds. -/
theorem C4_witness :
    resolveFk c4Store ⟨"method", "method_id",
      .compound ⟨"entities", "name", "entity_id", "methods", "name"⟩⟩ "Alpha.beta" = .ok 1 := by
  have h := (C4_theorem c4Store ⟨"entities", "name", "entity_id", "methods", "name"⟩
    "method" "method_id" "Alpha.beta").2 (by rfl)
  rw [h]
  rfl

-- ### C5: transactional atomicity of save

/-- C5: any failure anywhere in the recursive save tree (FK resolution,
malformed reference, missing parent, anything) leaves the caller's store
exactly as it was: `save` either succeeds or returns the pre-call store. -/
theorem C5_theorem (schemas : List (String × SchemaDefinition)) (store : Store)
    (schemaName : String) (obj : Rec) (e : SaveErr) :
    (save schemas store schemaName obj).2 = .error e →
    (save schemas store schemaName obj).1 = store := by
  intro h
  unfold save at h ⊢
  cases hs : objGet schemas schemaName with
  | none => simp [hs]
  | some schema =>
    simp only [hs] at h ⊢
    cases hd : doSave schemas (rdepth obj + 1) store schemaName schema obj none with
    | ok p => rw [hd] at h; exact absurd h (by simp)
    | error e2 => simp [hd]

/-- C5 — witness: a root with three valid children and one child whose FK
fails to resolve errors out and leaves the empty store untouched: no root
row, no child rows. -/
theorem C5_witness :
    (save SCHEMAS [] "entity" c5obj).2 = .error (.notFound "entities" "Nope") ∧
    (save SCHEMAS [] "entity" c5obj).1 = [] :=
  ⟨by rfl, C5_theorem SCHEMAS [] "entity" c5obj (.notFound "entities" "Nope") (by rfl)⟩

-- ### C9: chain-walk termination

theorem walkChain_none (m : List Exp) (fuel : Nat) (acc : List (String × String)) :
    walkChain m fuel none acc = some acc := by
  cases fuel <;> rfl

theorem orbit_add (m : List Exp) (a b c : Nat) :
    orbit m (a + b) c =
      match orbit m a c with
      | none => none
      | some d => orbit m b d := by
  induction a generalizing c with
  | zero => simp [orbit]
  | succ a ih =>
    rw [Nat.succ_add]
    show (match nextCursor m c with
      | none => none
      | some c2 => orbit m (a + b) c2) = _
    have hr : ∀ c2, nextCursor m c = some c2 → orbit m (a + 1) c = orbit m a c2 := by
      intro c2 h2
      show (match nextCursor m c with | none => none | some d => orbit m a d) = _
      rw [h2]
    have hr0 : nextCursor m c = none → orbit m (a + 1) c = none := by
      intro h2
      show (match nextCursor m c with | none => none | some d => orbit m a d) = _
      rw [h2]
    cases hnc : nextCursor m c with
    | none => rw [hr0 hnc]
    | some c2 =>
      rw [hr c2 hnc]
      exact ih c2

theorem orbit_isSome_mono (m : List Exp) {n k c : Nat}
    (h : orbit m n c ≠ none) (hk : k ≤ n) : orbit m k c ≠ none := by
  intro hk0
  apply h
  have hadd := orbit_add m k (n - k) c
  rw [Nat.add_sub_cancel' hk] at hadd
  rw [hadd, hk0]

theorem find?_pred_true {α : Type} (p : α → Bool) (l : List α) (a : α)
    (h : l.find? p = some a) : p a = true := by
  induction l with
  | nil => simp [List.find?] at h
  | cons hd tl ih =>
    rw [List.find?] at h
    by_cases hp : p hd = true
    · rw [hp] at h
      cases h
      exact hp
    · rw [Bool.eq_false_iff.mpr hp] at h
      exact ih h

theorem find?_mem {α : Type} (p : α → Bool) (l : List α) (a : α)
    (h : l.find? p = some a) : a ∈ l := by
  induction l with
  | nil => simp [List.find?] at h
  | cons hd tl ih =>
    rw [List.find?] at h
    by_cases hp : p hd = true
    · rw [hp] at h
      cases h
      exact List.mem_cons_self _ _
    · rw [Bool.eq_false_iff.mpr hp] at h
      exact List.mem_cons_of_mem _ (ih h)

theorem mem_ids_of_nextCursor (m : List Exp) (c : Nat) (h : nextCursor m c ≠ none) :
    c ∈ m.map (fun x => x.id) := by
  unfold nextCursor at h
  cases hf : m.find? (fun x => x.id == c) with
  | none => rw [hf] at h; exact absurd rfl h
  | some p =>
    have hp := find?_mem (fun x => x.id == c) m p hf
    have hpc := find?_pred_true (fun x => x.id == c) m p hf
    simp only [List.mem_map]
    exact ⟨p, hp, by simpa using hpc⟩

/-- Under acyclic parent links, the cursor cannot still be walking after
`m.length + 1` hops: the walk has stopped by then. -/
theorem orbit_terminates (m : List Exp) (hacyc : AcyclicParents m) (c : Nat) :
    orbit m (m.length + 1) c = none := by
  by_contra h
  have hy : ∀ k : Fin (m.length + 1), ∃ y, orbit m k.1 c = some y ∧
      y ∈ m.map (fun x => x.id) := by
    intro k
    have h1 : orbit m k.1 c ≠ none := orbit_isSome_mono m h (by omega)
    cases ho : orbit m k.1 c with
    | none => exact absurd ho h1
    | some y =>
      refine ⟨y, rfl, ?_⟩
      have h2 : orbit m (k.1 + 1) c ≠ none := orbit_isSome_mono m h (by omega)
      rw [orbit_add m k.1 1 c, ho] at h2
      apply mem_ids_of_nextCursor
      intro hnc
      apply h2
      simp [orbit, hnc]
  choose y hy1 hy2 using hy
  have hcard : (m.map (fun x => x.id)).toFinset.card <
      (Finset.univ : Finset (Fin (m.length + 1))).card := by
    have h1 : (m.map (fun x => x.id)).toFinset.card ≤ (m.map (fun x => x.id)).length :=
      List.toFinset_card_le _
    simp only [List.length_map] at h1
    simp only [Finset.card_univ, Fintype.card_fin]
    omega
  obtain ⟨i, _, j, _, hij, hyij⟩ :=
    Finset.exists_ne_map_eq_of_card_lt_of_maps_to hcard
      (fun k _ => List.mem_toFinset.mpr (hy2 k))
  have key : ∀ a b : Fin (m.length + 1), a < b → y a = y b → False := by
    intro a b hab hyab
    have hchain : orbit m (b.1 - a.1) (y a) = some (y b) := by
      have hadd := orbit_add m a.1 (b.1 - a.1) c
      rw [Nat.add_sub_cancel' (le_of_lt hab)] at hadd
      rw [hy1 a, hy1 b] at hadd
      exact hadd.symm
    have hb : b.1 - a.1 - 1 + 1 = b.1 - a.1 := by
      have : a.1 < b.1 := hab
      omega
    apply hacyc (y a) (hy2 a) (b.1 - a.1 - 1)
    · simp only [List.mem_range]
      have h1 : b.1 < m.length + 1 := b.2
      have : a.1 < b.1 := hab
      omega
    · rw [hb, hchain, hyab]
  rcases lt_or_gt_of_ne hij with hlt | hlt
  · exact key i j hlt hyij
  · exact key j i hlt hyij.symm

theorem walk_none_iff (m : List Exp) (fuel c : Nat) (acc : List (String × String)) :
    walkChain m fuel (some c) acc = none ↔ orbit m fuel c ≠ none := by
  induction fuel generalizing c acc with
  | zero => simp [walkChain, orbit]
  | succ fuel ih =>
    show (match m.find? (fun x => x.id == c) with
       | none => some acc
       | some p => walkChain m fuel p.parentExpansionId
           (acc ++ [(p.name, p.foreignKey)])) = none ↔
      (match nextCursor m c with
       | none => none
       | some c2 => orbit m fuel c2) ≠ none
    unfold nextCursor
    cases hf : m.find? (fun x => x.id == c) with
    | none => simp
    | some p =>
      show walkChain m fuel p.parentExpansionId (acc ++ [(p.name, p.foreignKey)]) = none ↔
        (match p.parentExpansionId with | none => none | some c2 => orbit m fuel c2) ≠ none
      cases hpp : p.parentExpansionId with
      | none => simp [walkChain_none]
      | some c2 => exact ih c2 _

/-- C9 — amended. The parent-chain walk has no hop bound and no cyclic-chain
error; what holds instead: whenever the stored parent references are
acyclic, the walk finishes within `rows + 1` hops (a missing parent row
merely truncates the chain). A stored cycle makes the loop run forever —
see the counterexample. -/
theorem C9_theorem (m : List Exp) (ex : Exp) (hacyc : AcyclicParents m) :
    (chainOf m ex (m.length + 1)).isSome := by
  unfold chainOf
  cases hp : ex.parentExpansionId with
  | none => simp [walkChain_none]
  | some c =>
    have hterm := orbit_terminates m hacyc c
    have hne : walkChain m (m.length + 1) (some c) [(ex.name, ex.foreignKey)] ≠ none := by
      rw [Ne, walk_none_iff]
      simp [hterm]
    cases hw : walkChain m (m.length + 1) (some c) [(ex.name, ex.foreignKey)] with
    | none => exact absurd hw hne
    | some l => simp

theorem walk_cyc_none : ∀ (n : Nat) (acc : List (String × String)) (c : Nat),
    c = 1 ∨ c = 2 → walkChain cycExps n (some c) acc = none := by
  intro n
  induction n with
  | zero => intro acc c _; rfl
  | succ n ih =>
    intro acc c hc
    rcases hc with h | h <;> subst h
    · show walkChain cycExps n (some 2) (acc ++ [("a", "fa")]) = none
      exact ih _ 2 (Or.inr rfl)
    · show walkChain cycExps n (some 1) (acc ++ [("b", "fb")]) = none
      exact ih _ 1 (Or.inl rfl)

/-- C9 — counterexample. The claim promises the walk terminates within a
bounded number of hops for every stored configuration, cycles included,
surfacing a `CyclicOrUnresolvedParent` fault. In fact, on a stored 2-cycle
the `while` loop never exits: no amount of fuel completes the walk (and no
such error value exists anywhere in the engine's error set). -/
theorem C9_counterexample : ¬ ∃ n, (chainOf cycExps cycExp1 n).isSome := by
  rintro ⟨n, hn⟩
  unfold chainOf at hn
  rw [show cycExp1.parentExpansionId = some 2 from rfl] at hn
  rw [walk_cyc_none n _ 2 (Or.inr rfl)] at hn
  simp at hn

/-- C9 — witness: on the acyclic tasks/comments configuration the walk from
the nested `comments` row completes within `rows + 1` hops. -/
theorem C9_witness :
    (chainOf demoExps ⟨2, "comments", "task_id", some 1, 30, 1, false⟩
      (demoExps.length + 1)).isSome :=
  C9_theorem demoExps ⟨2, "comments", "task_id", some 1, 30, 1, false⟩ (by decide)

-- ### Object-algebra lemmas (association lists with JS semantics)

theorem objGet_cons_pos {α : Type} (hd : String × α) (tl : List (String × α)) (k : String)
    (h : (hd.1 == k) = true) : objGet (hd :: tl) k = some hd.2 := by
  simp [objGet, List.find?, h]

theorem objGet_cons_neg {α : Type} (hd : String × α) (tl : List (String × α)) (k : String)
    (h : (hd.1 == k) = false) : objGet (hd :: tl) k = objGet tl k := by
  simp [objGet, List.find?, h]

theorem objGet_setPair {α : Type} (o : List (String × α)) (k : String) (v : α) (k' : String) :
    objGet (setPair o k v) k' = if k' = k then some v else objGet o k' := by
  induction o with
  | nil =>
    by_cases h : k' = k
    · subst h
      simp [setPair, objGet, List.find?]
    · have hb : (k == k') = false := by simpa using Ne.symm h
      simp [setPair, objGet, List.find?, hb, h]
  | cons hd tl ih =>
    by_cases hh : (hd.1 == k) = true
    · rw [show setPair (hd :: tl) k v = (k, v) :: tl from by simp [setPair, hh]]
      by_cases h : k' = k
      · subst h
        rw [objGet_cons_pos _ _ _ (by simp), if_pos rfl]
      · have hb : ((k, v).1 == k') = false := by simpa using Ne.symm h
        have hb2 : (hd.1 == k') = false := by
          have he : hd.1 = k := by simpa using hh
          rw [he]
          simpa using Ne.symm h
        rw [objGet_cons_neg _ _ _ hb, objGet_cons_neg _ _ _ hb2, if_neg h]
    · rw [show setPair (hd :: tl) k v = hd :: setPair tl k v from by simp [setPair, hh]]
      by_cases hh' : (hd.1 == k') = true
      · have hne : ¬ k' = k := by
          intro he
          subst he
          exact hh hh'
        rw [objGet_cons_pos _ _ _ hh', objGet_cons_pos _ _ _ hh', if_neg hne]
      · have hb : (hd.1 == k') = false := by
          cases hx : (hd.1 == k') with
          | true => exact absurd hx hh'
          | false => rfl
        rw [objGet_cons_neg _ _ _ hb, objGet_cons_neg _ _ _ hb]
        exact ih

theorem objGet_setPair_self {α : Type} (o : List (String × α)) (k : String) (v : α) :
    objGet (setPair o k v) k = some v := by
  rw [objGet_setPair, if_pos rfl]

theorem objGet_setPair_ne {α : Type} (o : List (String × α)) (k : String) (v : α)
    (k' : String) (h : k' ≠ k) : objGet (setPair o k v) k' = objGet o k' := by
  rw [objGet_setPair, if_neg h]

theorem objGet_erasePair {α : Type} (o : List (String × α)) (k k' : String) :
    objGet (erasePair o k) k' = if k' = k then none else objGet o k' := by
  induction o with
  | nil =>
    by_cases h : k' = k <;> simp [erasePair, objGet, List.find?, h]
  | cons hd tl ih =>
    by_cases hh : (hd.1 == k) = true
    · rw [show erasePair (hd :: tl) k = erasePair tl k from by simp [erasePair, hh]]
      by_cases hk' : k' = k
      · rw [ih, if_pos hk', if_pos hk']
      · rw [ih, if_neg hk', if_neg hk']
        have hb : (hd.1 == k') = false := by
          have he : hd.1 = k := by simpa using hh
          rw [he]
          simpa using Ne.symm hk'
        rw [objGet_cons_neg _ _ _ hb]
    · rw [show erasePair (hd :: tl) k = hd :: erasePair tl k from by simp [erasePair, hh]]
      by_cases hh' : (hd.1 == k') = true
      · have hne : ¬ k' = k := by
          intro he
          subst he
          exact hh hh'
        rw [objGet_cons_pos _ _ _ hh', objGet_cons_pos _ _ _ hh', if_neg hne]
      · have hb : (hd.1 == k') = false := by
          cases hx : (hd.1 == k') with
          | true => exact absurd hx hh'
          | false => rfl
        rw [objGet_cons_neg _ _ _ hb, objGet_cons_neg _ _ _ hb]
        exact ih

theorem objGet_eq_none_iff {α : Type} (o : List (String × α)) (k : String) :
    objGet o k = none ↔ k ∉ o.map Prod.fst := by
  unfold objGet
  rw [Option.map_eq_none', List.find?_eq_none]
  constructor
  · intro h hm
    rcases List.mem_map.mp hm with ⟨p, hp, hpk⟩
    exact h p hp (by simpa using hpk)
  · intro h p hp hpk
    exact h (List.mem_map.mpr ⟨p, hp, by simpa using hpk⟩)

theorem objGet_of_mem_nodup {α : Type} (o : List (String × α)) (k : String) (v : α)
    (hn : (o.map Prod.fst).Nodup) (hm : (k, v) ∈ o) : objGet o k = some v := by
  induction o with
  | nil => cases hm
  | cons hd tl ih =>
    rcases List.mem_cons.mp hm with h1 | h1
    · rw [← h1]
      simp [objGet, List.find?]
    · have hk : k ∈ tl.map Prod.fst := List.mem_map.mpr ⟨(k, v), h1, rfl⟩
      rw [List.map_cons] at hn
      have hn1 : hd.1 ∉ tl.map Prod.fst := (List.nodup_cons.mp hn).1
      have hn2 : (tl.map Prod.fst).Nodup := (List.nodup_cons.mp hn).2
      have hh : (hd.1 == k) = false := by
        cases hx : (hd.1 == k) with
        | true =>
          rw [eq_of_beq hx] at hn1
          exact absurd hk hn1
        | false => rfl
      rw [objGet_cons_neg _ _ _ hh]
      exact ih hn2 h1

theorem mem_keys_iff_objGet {α : Type} (o : List (String × α)) (k : String) :
    k ∈ o.map Prod.fst ↔ (objGet o k).isSome := by
  constructor
  · intro h
    cases ho : objGet o k with
    | some v => simp
    | none => exact absurd h ((objGet_eq_none_iff o k).mp ho)
  · intro h
    by_contra hm
    rw [(objGet_eq_none_iff o k).mpr hm] at h
    simp at h

theorem mem_keys_setPair {α : Type} (o : List (String × α)) (k : String) (v : α)
    (k' : String) (h : k' ∈ (setPair o k v).map Prod.fst) :
    k' ∈ o.map Prod.fst ∨ k' = k := by
  by_cases hk : k' = k
  · exact Or.inr hk
  · rw [mem_keys_iff_objGet] at h ⊢
    rw [objGet_setPair, if_neg hk] at h
    exact Or.inl h

theorem mem_keys_setPair_self {α : Type} (o : List (String × α)) (k : String) (v : α) :
    k ∈ (setPair o k v).map Prod.fst := by
  rw [mem_keys_iff_objGet, objGet_setPair, if_pos rfl]
  simp

theorem mem_keys_setPair_mono {α : Type} (o : List (String × α)) (k : String) (v : α)
    (k' : String) (h : k' ∈ o.map Prod.fst) : k' ∈ (setPair o k v).map Prod.fst := by
  by_cases hk : k' = k
  · subst hk; exact mem_keys_setPair_self o k' v
  · rw [mem_keys_iff_objGet] at h ⊢
    rw [objGet_setPair, if_neg hk]
    exact h

theorem nodup_keys_setPair {α : Type} (o : List (String × α)) (k : String) (v : α)
    (hn : (o.map Prod.fst).Nodup) : ((setPair o k v).map Prod.fst).Nodup := by
  induction o with
  | nil => simp [setPair]
  | cons hd tl ih =>
    rw [List.map_cons] at hn
    have hn1 : hd.1 ∉ tl.map Prod.fst := (List.nodup_cons.mp hn).1
    have hn2 : (tl.map Prod.fst).Nodup := (List.nodup_cons.mp hn).2
    by_cases hh : (hd.1 == k) = true
    · rw [show setPair (hd :: tl) k v = (k, v) :: tl from by simp [setPair, hh]]
      rw [List.map_cons, List.nodup_cons]
      have he : hd.1 = k := by simpa using hh
      exact ⟨by rw [← he]; exact hn1, hn2⟩
    · rw [show setPair (hd :: tl) k v = hd :: setPair tl k v from by simp [setPair, hh]]
      rw [List.map_cons, List.nodup_cons]
      refine ⟨?_, ih hn2⟩
      intro hmem
      rcases mem_keys_setPair tl k v hd.1 hmem with h1 | h1
      · exact hn1 h1
      · exact hh (by simpa using h1)

theorem mem_keys_erasePair {α : Type} (o : List (String × α)) (k k' : String)
    (h : k' ∈ (erasePair o k).map Prod.fst) : k' ∈ o.map Prod.fst ∧ k' ≠ k := by
  by_cases hk : k' = k
  · subst hk
    rw [mem_keys_iff_objGet, objGet_erasePair, if_pos rfl] at h
    simp at h
  · rw [mem_keys_iff_objGet, objGet_erasePair, if_neg hk] at h
    exact ⟨(mem_keys_iff_objGet o k').mpr h, hk⟩

theorem nodup_keys_erasePair {α : Type} (o : List (String × α)) (k : String)
    (hn : (o.map Prod.fst).Nodup) : ((erasePair o k).map Prod.fst).Nodup := by
  induction o with
  | nil => simp [erasePair]
  | cons hd tl ih =>
    rw [List.map_cons] at hn
    have hn1 : hd.1 ∉ tl.map Prod.fst := (List.nodup_cons.mp hn).1
    have hn2 : (tl.map Prod.fst).Nodup := (List.nodup_cons.mp hn).2
    by_cases hh : (hd.1 == k) = true
    · rw [show erasePair (hd :: tl) k = erasePair tl k from by simp [erasePair, hh]]
      exact ih hn2
    · rw [show erasePair (hd :: tl) k = hd :: erasePair tl k from by simp [erasePair, hh]]
      rw [List.map_cons, List.nodup_cons]
      exact ⟨fun hmem => hn1 (mem_keys_erasePair tl k hd.1 hmem).1, ih hn2⟩

theorem objGet_objMerge {α : Type} (b a : List (String × α)) (k : String)
    (hb : (b.map Prod.fst).Nodup) :
    objGet (objMerge a b) k = ((objGet b k).or (objGet a k)) := by
  induction b generalizing a with
  | nil => simp [objMerge, objGet, List.find?]
  | cons hd tl ih =>
    rw [List.map_cons] at hb
    have hb1 : hd.1 ∉ tl.map Prod.fst := (List.nodup_cons.mp hb).1
    have hb2 : (tl.map Prod.fst).Nodup := (List.nodup_cons.mp hb).2
    rw [show objMerge a (hd :: tl) = objMerge (setPair a hd.1 hd.2) tl from rfl]
    rw [ih _ hb2]
    by_cases hk : k = hd.1
    · rw [objGet_cons_pos hd tl k (by simp [hk])]
      have htl : objGet tl k = none := by
        rw [hk]
        exact (objGet_eq_none_iff tl hd.1).mpr hb1
      rw [htl, objGet_setPair, if_pos hk]
      rfl
    · have hbk : (hd.1 == k) = false := by simpa using Ne.symm hk
      rw [objGet_cons_neg _ _ _ hbk, objGet_setPair, if_neg hk]

theorem mem_keys_objMerge {α : Type} (b a : List (String × α)) (k : String)
    (h : k ∈ (objMerge a b).map Prod.fst) :
    k ∈ a.map Prod.fst ∨ k ∈ b.map Prod.fst := by
  induction b generalizing a with
  | nil => exact Or.inl h
  | cons hd tl ih =>
    rw [show objMerge a (hd :: tl) = objMerge (setPair a hd.1 hd.2) tl from rfl] at h
    rcases ih _ h with h1 | h1
    · rcases mem_keys_setPair a hd.1 hd.2 k h1 with h2 | h2
      · exact Or.inl h2
      · exact Or.inr (by simp [h2])
    · exact Or.inr (List.mem_cons.mpr (Or.inr h1))

theorem nodup_keys_objMerge {α : Type} (b a : List (String × α))
    (ha : (a.map Prod.fst).Nodup) : ((objMerge a b).map Prod.fst).Nodup := by
  induction b generalizing a with
  | nil => exact ha
  | cons hd tl ih =>
    rw [show objMerge a (hd :: tl) = objMerge (setPair a hd.1 hd.2) tl from rfl]
    exact ih _ (nodup_keys_setPair a hd.1 hd.2 ha)

theorem setPair_eq_self {α : Type} (o : List (String × α)) (k : String) (v : α)
    (h : objGet o k = some v) : setPair o k v = o := by
  induction o with
  | nil => simp [objGet, List.find?] at h
  | cons hd tl ih =>
    by_cases hh : (hd.1 == k) = true
    · rw [objGet_cons_pos _ _ _ hh] at h
      rw [show setPair (hd :: tl) k v = (k, v) :: tl from by simp [setPair, hh]]
      have he : hd.1 = k := by simpa using hh
      have hv : hd.2 = v := by simpa using h
      rw [← he, ← hv]
    · have hb : (hd.1 == k) = false := by
        cases hx : (hd.1 == k) with
        | true => exact absurd hx hh
        | false => rfl
      rw [objGet_cons_neg _ _ _ hb] at h
      rw [show setPair (hd :: tl) k v = hd :: setPair tl k v from by simp [setPair, hh]]
      rw [ih h]

theorem applySets_cons (cells : List (String × DbVal)) (c : String × DbVal)
    (rest : List (String × DbVal)) :
    applySets cells (c :: rest) = applySets (setPair cells c.1 c.2) rest := rfl

theorem objGet_applySets_not_mem (cells sets : List (String × DbVal)) (k : String)
    (h : k ∉ sets.map Prod.fst) : objGet (applySets cells sets) k = objGet cells k := by
  induction sets generalizing cells with
  | nil => rfl
  | cons hd tl ih =>
    rw [List.map_cons] at h
    rw [applySets_cons, ih _ (fun hm => h (List.mem_cons.mpr (Or.inr hm)))]
    rw [objGet_setPair, if_neg (fun he => h (List.mem_cons.mpr (Or.inl he)))]

theorem objGet_applySets_mem (cells sets : List (String × DbVal)) (k : String) (v : DbVal)
    (hn : (sets.map Prod.fst).Nodup) (hm : (k, v) ∈ sets) :
    objGet (applySets cells sets) k = some v := by
  induction sets generalizing cells with
  | nil => cases hm
  | cons hd tl ih =>
    rw [List.map_cons] at hn
    have hn1 : hd.1 ∉ tl.map Prod.fst := (List.nodup_cons.mp hn).1
    have hn2 : (tl.map Prod.fst).Nodup := (List.nodup_cons.mp hn).2
    rcases List.mem_cons.mp hm with h1 | h1
    · have hk : k = hd.1 := by rw [← h1]
      have hv : v = hd.2 := by rw [← h1]
      subst hk
      subst hv
      rw [applySets_cons]
      rw [objGet_applySets_not_mem _ _ _ hn1]
      exact objGet_setPair_self cells hd.1 hd.2
    · rw [applySets_cons]
      exact ih _ hn2 h1

theorem applySets_noop (cells sets : List (String × DbVal))
    (h : ∀ p ∈ sets, objGet cells p.1 = some p.2) : applySets cells sets = cells := by
  induction sets with
  | nil => rfl
  | cons hd tl ih =>
    rw [applySets_cons, setPair_eq_self cells hd.1 hd.2 (h hd (List.mem_cons_self _ _))]
    exact ih (fun p hp => h p (List.mem_cons.mpr (Or.inr hp)))

theorem applySets_idem (cells sets : List (String × DbVal))
    (hn : (sets.map Prod.fst).Nodup) :
    applySets (applySets cells sets) sets = applySets cells sets :=
  applySets_noop _ _ (fun p hp => objGet_applySets_mem cells sets p.1 p.2 hn hp)

theorem objGet_map_value {α β : Type} (l : List (String × α)) (f : α → β) (k : String) :
    objGet (l.map (fun p => (p.1, f p.2))) k = (objGet l k).map f := by
  induction l with
  | nil => simp [objGet, List.find?]
  | cons hd tl ih =>
    by_cases hh : (hd.1 == k) = true
    · rw [List.map_cons, objGet_cons_pos _ _ _ (by simpa using hh),
        objGet_cons_pos _ _ _ hh]
      rfl
    · have hb : (hd.1 == k) = false := by
        cases hx : (hd.1 == k) with
        | true => exact absurd hx hh
        | false => rfl
      rw [List.map_cons, objGet_cons_neg _ _ _ (by simpa using hb),
        objGet_cons_neg _ _ _ hb]
      exact ih

theorem keys_map_value {α β : Type} (l : List (String × α)) (f : α → β) :
    (l.map (fun p => (p.1, f p.2))).map Prod.fst = l.map Prod.fst := by
  rw [List.map_map]
  rfl

theorem objGet_foldl_erase (conds : List (String × DbVal)) :
    ∀ (u0 : List (String × JVal)) (k : String),
      objGet (conds.foldl (fun acc c => erasePair acc c.1) u0) k =
        if conds.any (fun c => c.1 == k) then none else objGet u0 k := by
  induction conds with
  | nil => intro u0 k; simp
  | cons c0 rest ih =>
    intro u0 k
    rw [List.foldl_cons, ih]
    by_cases hc : (c0.1 == k) = true
    · have hk : k = c0.1 := (eq_of_beq hc).symm
      rw [show ((c0 :: rest).any (fun c => c.1 == k)) = true from by simp [List.any_cons, hc]]
      by_cases hr : (rest.any (fun c => c.1 == k)) = true
      · rw [if_pos hr]
        rfl
      · rw [if_neg hr, objGet_erasePair, if_pos hk]
        rfl
    · have hb : (c0.1 == k) = false := by
        cases hx : (c0.1 == k) with
        | true => exact absurd hx hc
        | false => rfl
      rw [show ((c0 :: rest).any (fun c => c.1 == k)) = (rest.any (fun c => c.1 == k)) from by
        simp [List.any_cons, hb]]
      by_cases hr : (rest.any (fun c => c.1 == k)) = true
      · rw [if_pos hr, if_pos hr]
      · rw [if_neg hr, if_neg hr, objGet_erasePair,
          if_neg (fun he => hc (by simp [he]))]

theorem nodup_keys_foldl_erase (conds : List (String × DbVal)) :
    ∀ (u0 : List (String × JVal)), ((u0.map Prod.fst).Nodup) →
      (((conds.foldl (fun acc c => erasePair acc c.1) u0).map Prod.fst)).Nodup := by
  induction conds with
  | nil => intro u0 h; exact h
  | cons c0 rest ih =>
    intro u0 h
    rw [List.foldl_cons]
    exact ih _ (nodup_keys_erasePair u0 c0.1 h)

theorem mem_keys_foldl_erase (conds : List (String × DbVal)) :
    ∀ (u0 : List (String × JVal)) (k : String),
      k ∈ ((conds.foldl (fun acc c => erasePair acc c.1) u0).map Prod.fst) →
      k ∈ u0.map Prod.fst ∧ ∀ c ∈ conds, k ≠ c.1 := by
  induction conds with
  | nil => intro u0 k h; exact ⟨h, by simp⟩
  | cons c0 rest ih =>
    intro u0 k h
    rw [List.foldl_cons] at h
    obtain ⟨h1, h2⟩ := ih _ k h
    obtain ⟨h3, h4⟩ := mem_keys_erasePair u0 c0.1 k h1
    refine ⟨h3, ?_⟩
    intro c hc
    rcases List.mem_cons.mp hc with h5 | h5
    · rw [h5]; exact h4
    · exact h2 c h5

theorem matchesWhere_congr (r r' : Row) (conds : List (String × DbVal))
    (h : ∀ cv ∈ conds, objGet r.cells cv.1 = objGet r'.cells cv.1) :
    matchesWhere r conds = matchesWhere r' conds := by
  unfold matchesWhere
  induction conds with
  | nil => rfl
  | cons hd tl ih =>
    rw [List.all_cons, List.all_cons, h hd (List.mem_cons_self _ _),
      ih (fun cv hcv => h cv (List.mem_cons.mpr (Or.inr hcv)))]

theorem find?_append_none {α : Type} (p : α → Bool) (l1 l2 : List α)
    (h : l1.find? p = none) : (l1 ++ l2).find? p = l2.find? p := by
  induction l1 with
  | nil => rfl
  | cons hd tl ih =>
    rw [List.find?] at h
    cases hx : p hd with
    | true => rw [hx] at h; cases h
    | false =>
      rw [hx] at h
      rw [List.cons_append, List.find?, hx]
      exact ih h

theorem setTable_setTable (s : Store) (n : String) (t t' : Table) :
    setTable (setTable s n t) n t' = setTable s n t' := by
  induction s with
  | nil => simp [setTable]
  | cons hd tl ih =>
    by_cases hh : (hd.1 == n) = true
    · simp [setTable, hh]
    · simp [setTable, hh, ih]

theorem getTable_updateRow_self (s : Store) (tab : String) (i : Nat)
    (sets : List (String × DbVal)) :
    getTable (updateRow s tab i sets) tab =
      ⟨(getTable s tab).rows.map
        (fun r => if r.id == i then ⟨r.id, applySets r.cells sets⟩ else r),
       (getTable s tab).nextId⟩ := by
  unfold updateRow
  exact getTable_setTable_self _ _ _

theorem getTable_updateRow_ne (s : Store) (tab : String) (i : Nat)
    (sets : List (String × DbVal)) (t : String) (h : t ≠ tab) :
    getTable (updateRow s tab i sets) t = getTable s t := by
  unfold updateRow
  exact getTable_setTable_ne _ _ _ _ h

theorem getTable_insertRow_self (s : Store) (tab : String) (cells : List (String × DbVal)) :
    getTable (insertRow s tab cells).1 tab =
      ⟨(getTable s tab).rows ++ [⟨(getTable s tab).nextId, cells⟩],
       (getTable s tab).nextId + 1⟩ := by
  unfold insertRow
  exact getTable_setTable_self _ _ _

theorem getTable_insertRow_ne (s : Store) (tab : String) (cells : List (String × DbVal))
    (t : String) (h : t ≠ tab) : getTable (insertRow s tab cells).1 t = getTable s t := by
  unfold insertRow
  exact getTable_setTable_ne _ _ _ _ h

theorem insertRow_snd (s : Store) (tab : String) (cells : List (String × DbVal)) :
    (insertRow s tab cells).2 = (getTable s tab).nextId := rfl

theorem selectIdWhere_congr (s1 s2 : Store) (t : String) (conds : List (String × DbVal))
    (h : getTable s1 t = getTable s2 t) :
    selectIdWhere s1 t conds = selectIdWhere s2 t conds := by
  unfold selectIdWhere
  rw [h]

theorem resolveFk_simple_red (store : Store) (fld col : String) (sp : SimpleFk)
    (v : String) :
    resolveFk store ⟨fld, col, .simple sp⟩ v =
      (match selectIdWhere store sp.table [(sp.lookupColumn, .text v)] with
       | some i => .ok i
       | none => .error (.notFound sp.table v)) := rfl

theorem resolveFk_compound_red (store : Store) (fld col : String) (c : CompoundFk)
    (v : String) :
    resolveFk store ⟨fld, col, .compound c⟩ v =
      (if (jsSplitDot v).length == 2 then
        match selectIdWhere store c.parentTable
            [(c.parentLookupColumn, .text ((jsSplitDot v).getD 0 ""))] with
        | none => .error (.notFound c.parentTable ((jsSplitDot v).getD 0 ""))
        | some parentId =>
          match selectIdWhere store c.table
              [(c.parentIdColumn, .int parentId),
               (c.lookupColumn, .text ((jsSplitDot v).getD 1 ""))] with
          | none => .error (.notFoundScoped c.table ((jsSplitDot v).getD 1 "")
              ((jsSplitDot v).getD 0 ""))
          | some i => .ok i
      else .error (.malformed v)) := rfl

theorem resolveFk_congr (s1 s2 : Store) (rule : FkRule) (v : String)
    (h : ∀ t ∈ fkTables rule, getTable s1 t = getTable s2 t) :
    resolveFk s1 rule v = resolveFk s2 rule v := by
  obtain ⟨fld, col, res⟩ := rule
  cases res with
  | simple sp =>
    rw [resolveFk_simple_red, resolveFk_simple_red,
      selectIdWhere_congr s1 s2 sp.table _ (h sp.table (by simp [fkTables]))]
  | compound c =>
    rw [resolveFk_compound_red, resolveFk_compound_red]
    by_cases hc : ((jsSplitDot v).length == 2) = true
    · rw [if_pos hc, if_pos hc,
        selectIdWhere_congr s1 s2 c.parentTable _ (h c.parentTable (by simp [fkTables]))]
      cases selectIdWhere s2 c.parentTable
          [(c.parentLookupColumn, .text ((jsSplitDot v).getD 0 ""))] with
      | none => rfl
      | some pid =>
        show (match selectIdWhere s1 c.table
            [(c.parentIdColumn, .int (pid : Int)),
             (c.lookupColumn, .text ((jsSplitDot v).getD 1 ""))] with
          | none => Except.error (SaveErr.notFoundScoped c.table ((jsSplitDot v).getD 1 "")
              ((jsSplitDot v).getD 0 ""))
          | some i => Except.ok i) =
          (match selectIdWhere s2 c.table
            [(c.parentIdColumn, .int (pid : Int)),
             (c.lookupColumn, .text ((jsSplitDot v).getD 1 ""))] with
          | none => Except.error (SaveErr.notFoundScoped c.table ((jsSplitDot v).getD 1 "")
              ((jsSplitDot v).getD 0 ""))
          | some i => Except.ok i)
        rw [selectIdWhere_congr s1 s2 c.table _ (h c.table (by simp [fkTables]))]
    · rw [if_neg hc, if_neg hc]

theorem resolveFksGo_cons_none (store : Store) (obj : Rec) (fk : FkRule)
    (rest : List FkRule) (acc : List (String × JVal))
    (ho : objGet obj fk.field = none) :
    resolveFksGo store obj (fk :: rest) acc = resolveFksGo store obj rest acc := by
  show (match objGet obj fk.field with
    | none => resolveFksGo store obj rest acc
    | some .null => resolveFksGo store obj rest acc
    | some v =>
      match resolveFk store fk (jvalToString v) with
      | .ok i => resolveFksGo store obj rest (setPair acc fk.column (.num (i : Int)))
      | .error e => .error e) = resolveFksGo store obj rest acc
  rw [ho]

theorem resolveFksGo_cons_null (store : Store) (obj : Rec) (fk : FkRule)
    (rest : List FkRule) (acc : List (String × JVal))
    (ho : objGet obj fk.field = some .null) :
    resolveFksGo store obj (fk :: rest) acc = resolveFksGo store obj rest acc := by
  show (match objGet obj fk.field with
    | none => resolveFksGo store obj rest acc
    | some .null => resolveFksGo store obj rest acc
    | some v =>
      match resolveFk store fk (jvalToString v) with
      | .ok i => resolveFksGo store obj rest (setPair acc fk.column (.num (i : Int)))
      | .error e => .error e) = resolveFksGo store obj rest acc
  rw [ho]

theorem resolveFksGo_cons_some (store : Store) (obj : Rec) (fk : FkRule)
    (rest : List FkRule) (acc : List (String × JVal)) (v : JVal)
    (ho : objGet obj fk.field = some v) (hv : v ≠ .null) :
    resolveFksGo store obj (fk :: rest) acc =
      (match resolveFk store fk (jvalToString v) with
       | .ok i => resolveFksGo store obj rest (setPair acc fk.column (.num (i : Int)))
       | .error e => .error e) := by
  show (match objGet obj fk.field with
    | none => resolveFksGo store obj rest acc
    | some .null => resolveFksGo store obj rest acc
    | some w =>
      match resolveFk store fk (jvalToString w) with
      | .ok i => resolveFksGo store obj rest (setPair acc fk.column (.num (i : Int)))
      | .error e => .error e) =
      (match resolveFk store fk (jvalToString v) with
       | .ok i => resolveFksGo store obj rest (setPair acc fk.column (.num (i : Int)))
       | .error e => .error e)
  rw [ho]
  cases v with
  | null => exact absurd rfl hv
  | bool b => rfl
  | num n => rfl
  | str s => rfl
  | arr xs => rfl
  | obj fs => rfl

theorem resolveFksGo_congr (s1 s2 : Store) (obj : Rec) :
    ∀ (fks : List FkRule) (acc : List (String × JVal)),
      (∀ fk ∈ fks, ∀ t ∈ fkTables fk, getTable s1 t = getTable s2 t) →
      resolveFksGo s1 obj fks acc = resolveFksGo s2 obj fks acc := by
  intro fks
  induction fks with
  | nil => intro acc _; rfl
  | cons fk rest ih =>
    intro acc h
    have hrest : ∀ f ∈ rest, ∀ t ∈ fkTables f, getTable s1 t = getTable s2 t :=
      fun f hf => h f (List.mem_cons.mpr (Or.inr hf))
    cases ho : objGet obj fk.field with
    | none =>
      rw [resolveFksGo_cons_none s1 obj fk rest acc ho,
        resolveFksGo_cons_none s2 obj fk rest acc ho]
      exact ih acc hrest
    | some v =>
      by_cases hv : v = JVal.null
      · subst hv
        rw [resolveFksGo_cons_null s1 obj fk rest acc ho,
          resolveFksGo_cons_null s2 obj fk rest acc ho]
        exact ih acc hrest
      · rw [resolveFksGo_cons_some s1 obj fk rest acc v ho hv,
          resolveFksGo_cons_some s2 obj fk rest acc v ho hv,
          resolveFk_congr s1 s2 fk (jvalToString v) (h fk (List.mem_cons_self _ _))]
        cases resolveFk s2 fk (jvalToString v) with
        | ok i => exact ih _ hrest
        | error e => rfl

theorem resolveFks_congr (s1 s2 : Store) (fks : List FkRule) (obj : Rec)
    (h : ∀ fk ∈ fks, ∀ t ∈ fkTables fk, getTable s1 t = getTable s2 t) :
    resolveFks s1 fks obj = resolveFks s2 fks obj :=
  resolveFksGo_congr s1 s2 obj fks [] h

theorem nodup_keys_resolveFksGo (store : Store) (obj : Rec) :
    ∀ (fks : List FkRule) (acc r : List (String × JVal)),
      ((acc.map Prod.fst).Nodup) → resolveFksGo store obj fks acc = .ok r →
      ((r.map Prod.fst)).Nodup := by
  intro fks
  induction fks with
  | nil =>
    intro acc r hn h
    cases h
    exact hn
  | cons fk rest ih =>
    intro acc r hn h
    cases ho : objGet obj fk.field with
    | none =>
      rw [resolveFksGo_cons_none store obj fk rest acc ho] at h
      exact ih acc r hn h
    | some v =>
      by_cases hv : v = JVal.null
      · subst hv
        rw [resolveFksGo_cons_null store obj fk rest acc ho] at h
        exact ih acc r hn h
      · rw [resolveFksGo_cons_some store obj fk rest acc v ho hv] at h
        cases hr : resolveFk store fk (jvalToString v) with
        | ok i => rw [hr] at h; exact ih _ r (nodup_keys_setPair _ _ _ hn) h
        | error e => rw [hr] at h; cases h

theorem nodup_keys_foldl_setPairish {α β : Type} (l : List β)
    (f : List (String × α) → β → List (String × α))
    (hf : ∀ acc x, f acc x = acc ∨ ∃ k v, f acc x = setPair acc k v) :
    ∀ acc, ((acc.map Prod.fst : List String)).Nodup →
      (((l.foldl f acc).map Prod.fst : List String)).Nodup := by
  induction l with
  | nil => intro acc h; exact h
  | cons hd tl ih =>
    intro acc h
    rw [List.foldl_cons]
    apply ih
    rcases hf acc hd with h1 | ⟨k, v, h1⟩
    · rw [h1]; exact h
    · rw [h1]; exact nodup_keys_setPair _ _ _ h

theorem nodup_keys_buildColValues (schema : SchemaDefinition) (obj : Rec) :
    (((buildColValues schema obj).map Prod.fst)).Nodup := by
  unfold buildColValues
  apply nodup_keys_foldl_setPairish
  · intro acc p
    cases objGet obj p.1 with
    | none => exact Or.inl rfl
    | some v => exact Or.inr ⟨_, _, rfl⟩
  · simp

theorem map_eq_self_of_forall {α : Type} (l : List α) (f : α → α)
    (h : ∀ a ∈ l, f a = a) : l.map f = l := by
  induction l with
  | nil => rfl
  | cons hd tl ih =>
    rw [List.map_cons, h hd (List.mem_cons_self _ _),
      ih (fun a ha => h a (List.mem_cons.mpr (Or.inr ha)))]

theorem expansionParentStep_id (store : Store) (schemaName : String) (obj : Rec)
    (parent? : Option (Nat × String)) (resolved : List (String × JVal))
    (h : (schemaName == "expansion" && truthyOpt (objGet obj "parent")) = false) :
    expansionParentStep store schemaName obj parent? resolved = .ok resolved := by
  unfold expansionParentStep
  rw [h]
  rfl

theorem seqStep_id (store : Store) (schemaName : String) (obj : Rec)
    (resolved colValues : List (String × JVal))
    (h : (schemaName == "check" && (objGet obj "seq").isNone) = false) :
    seqStep store schemaName obj resolved colValues = colValues := by
  unfold seqStep
  rw [h, Bool.false_and]
  rfl

theorem rowPhase_found (store : Store) (schemaName : String) (schema : SchemaDefinition)
    (obj : Rec) (parent? : Option (Nat × String))
    (resolved colValues resolvedF : List (String × JVal)) (rowId : Nat)
    (hmeta : (schemaName == "metadata") = false)
    (h3b : expansionParentStep store schemaName obj parent? resolved = .ok resolvedF)
    (hne : (buildWhere schema resolvedF colValues parent?).isEmpty = false)
    (hfound : selectIdWhere store schema.table (buildWhere schema resolvedF colValues parent?)
      = some rowId) :
    rowPhase store schemaName schema obj parent? resolved colValues =
      (if (updateColsOf (buildWhere schema resolvedF colValues parent?) parent?
            (deniedStep schemaName obj (seqStep store schemaName obj resolvedF colValues))
            resolvedF).isEmpty
       then .ok (store, rowId)
       else .ok (updateRow store schema.table rowId
          ((updateColsOf (buildWhere schema resolvedF colValues parent?) parent?
            (deniedStep schemaName obj (seqStep store schemaName obj resolvedF colValues))
            resolvedF).map (fun (p : String × JVal) => (p.1, toDb p.2))), rowId)) := by
  unfold rowPhase
  rw [h3b]
  show (if (schemaName == "metadata") = true then _ else _) = _
  rw [hmeta]
  show (match (if (buildWhere schema resolvedF colValues parent?).isEmpty = true then none
      else selectIdWhere store schema.table (buildWhere schema resolvedF colValues parent?))
      with
    | some rowId =>
      if (updateColsOf (buildWhere schema resolvedF colValues parent?) parent?
            (deniedStep schemaName obj (seqStep store schemaName obj resolvedF colValues))
            resolvedF).isEmpty
      then Except.ok (store, rowId)
      else Except.ok (updateRow store schema.table rowId
          ((updateColsOf (buildWhere schema resolvedF colValues parent?) parent?
            (deniedStep schemaName obj (seqStep store schemaName obj resolvedF colValues))
            resolvedF).map (fun (p : String × JVal) => (p.1, toDb p.2))), rowId)
    | none =>
      Except.ok (insertRow store schema.table
        ((insertCellsOf schema
            (deniedStep schemaName obj (seqStep store schemaName obj resolvedF colValues))
            resolvedF parent?).map (fun (p : String × JVal) => (p.1, toDb p.2))))) = _
  rw [hne]
  show (match selectIdWhere store schema.table
      (buildWhere schema resolvedF colValues parent?) with
    | some rowId =>
      if (updateColsOf (buildWhere schema resolvedF colValues parent?) parent?
            (deniedStep schemaName obj (seqStep store schemaName obj resolvedF colValues))
            resolvedF).isEmpty
      then Except.ok (store, rowId)
      else Except.ok (updateRow store schema.table rowId
          ((updateColsOf (buildWhere schema resolvedF colValues parent?) parent?
            (deniedStep schemaName obj (seqStep store schemaName obj resolvedF colValues))
            resolvedF).map (fun (p : String × JVal) => (p.1, toDb p.2))), rowId)
    | none =>
      Except.ok (insertRow store schema.table
        ((insertCellsOf schema
            (deniedStep schemaName obj (seqStep store schemaName obj resolvedF colValues))
            resolvedF parent?).map (fun (p : String × JVal) => (p.1, toDb p.2))))) = _
  rw [hfound]

theorem rowPhase_insert (store : Store) (schemaName : String) (schema : SchemaDefinition)
    (obj : Rec) (parent? : Option (Nat × String))
    (resolved colValues resolvedF : List (String × JVal))
    (hmeta : (schemaName == "metadata") = false)
    (h3b : expansionParentStep store schemaName obj parent? resolved = .ok resolvedF)
    (hne : (buildWhere schema resolvedF colValues parent?).isEmpty = false)
    (hlook : selectIdWhere store schema.table (buildWhere schema resolvedF colValues parent?)
      = none) :
    rowPhase store schemaName schema obj parent? resolved colValues =
      .ok (insertRow store schema.table
        ((insertCellsOf schema
            (deniedStep schemaName obj (seqStep store schemaName obj resolvedF colValues))
            resolvedF parent?).map (fun (p : String × JVal) => (p.1, toDb p.2)))) := by
  unfold rowPhase
  rw [h3b]
  show (if (schemaName == "metadata") = true then _ else _) = _
  rw [hmeta]
  show (match (if (buildWhere schema resolvedF colValues parent?).isEmpty = true then none
      else selectIdWhere store schema.table (buildWhere schema resolvedF colValues parent?))
      with
    | some rowId =>
      if (updateColsOf (buildWhere schema resolvedF colValues parent?) parent?
            (deniedStep schemaName obj (seqStep store schemaName obj resolvedF colValues))
            resolvedF).isEmpty
      then Except.ok (store, rowId)
      else Except.ok (updateRow store schema.table rowId
          ((updateColsOf (buildWhere schema resolvedF colValues parent?) parent?
            (deniedStep schemaName obj (seqStep store schemaName obj resolvedF colValues))
            resolvedF).map (fun (p : String × JVal) => (p.1, toDb p.2))), rowId)
    | none =>
      Except.ok (insertRow store schema.table
        ((insertCellsOf schema
            (deniedStep schemaName obj (seqStep store schemaName obj resolvedF colValues))
            resolvedF parent?).map (fun (p : String × JVal) => (p.1, toDb p.2))))) = _
  rw [hne]
  show (match selectIdWhere store schema.table
      (buildWhere schema resolvedF colValues parent?) with
    | some rowId =>
      if (updateColsOf (buildWhere schema resolvedF colValues parent?) parent?
            (deniedStep schemaName obj (seqStep store schemaName obj resolvedF colValues))
            resolvedF).isEmpty
      then Except.ok (store, rowId)
      else Except.ok (updateRow store schema.table rowId
          ((updateColsOf (buildWhere schema resolvedF colValues parent?) parent?
            (deniedStep schemaName obj (seqStep store schemaName obj resolvedF colValues))
            resolvedF).map (fun (p : String × JVal) => (p.1, toDb p.2))), rowId)
    | none =>
      Except.ok (insertRow store schema.table
        ((insertCellsOf schema
            (deniedStep schemaName obj (seqStep store schemaName obj resolvedF colValues))
            resolvedF parent?).map (fun (p : String × JVal) => (p.1, toDb p.2))))) = _
  rw [hlook]

theorem updateColsOf_none_eq (whereConds : List (String × DbVal))
    (colValues resolved : List (String × JVal)) :
    updateColsOf whereConds none colValues resolved =
      whereConds.foldl (fun acc c => erasePair acc c.1) (objMerge colValues resolved) := rfl

theorem updateColsOf_some_eq (whereConds : List (String × DbVal)) (pid : Nat) (pcol : String)
    (colValues resolved : List (String × JVal)) :
    updateColsOf whereConds (some (pid, pcol)) colValues resolved =
      (if (pcol != "") = true then
        erasePair (whereConds.foldl (fun acc c => erasePair acc c.1)
          (objMerge colValues resolved)) pcol
      else whereConds.foldl (fun acc c => erasePair acc c.1)
        (objMerge colValues resolved)) := rfl

theorem mem_keys_updateColsOf (whereConds : List (String × DbVal))
    (parent? : Option (Nat × String)) (colValues resolved : List (String × JVal))
    (k : String)
    (h : k ∈ (updateColsOf whereConds parent? colValues resolved).map Prod.fst) :
    (k ∈ colValues.map Prod.fst ∨ k ∈ resolved.map Prod.fst) ∧
    (∀ c ∈ whereConds, k ≠ c.1) ∧
    (∀ pid pcol, parent? = some (pid, pcol) → (pcol != "") = true → k ≠ pcol) := by
  cases parent? with
  | none =>
    rw [updateColsOf_none_eq] at h
    obtain ⟨h1, h2⟩ := mem_keys_foldl_erase whereConds _ k h
    exact ⟨mem_keys_objMerge _ _ k h1, h2, by intro pid pcol hp; cases hp⟩
  | some p =>
    obtain ⟨pid, pcol⟩ := p
    rw [updateColsOf_some_eq] at h
    by_cases hpc : (pcol != "") = true
    · rw [if_pos hpc] at h
      obtain ⟨h1, h2⟩ := mem_keys_erasePair _ _ _ h
      obtain ⟨h3, h4⟩ := mem_keys_foldl_erase whereConds _ k h1
      refine ⟨mem_keys_objMerge _ _ k h3, h4, ?_⟩
      intro pid' pcol' hp _
      injection hp with hp
      cases hp
      exact h2
    · rw [if_neg hpc] at h
      obtain ⟨h1, h2⟩ := mem_keys_foldl_erase whereConds _ k h
      refine ⟨mem_keys_objMerge _ _ k h1, h2, ?_⟩
      intro pid' pcol' hp hpc'
      injection hp with hp
      cases hp
      exact absurd hpc' hpc

theorem nodup_keys_updateColsOf (whereConds : List (String × DbVal))
    (parent? : Option (Nat × String)) (colValues resolved : List (String × JVal))
    (h : (colValues.map Prod.fst).Nodup) :
    ((updateColsOf whereConds parent? colValues resolved).map Prod.fst).Nodup := by
  have hm : ((objMerge colValues resolved).map Prod.fst).Nodup :=
    nodup_keys_objMerge resolved colValues h
  have hf := nodup_keys_foldl_erase whereConds _ hm
  cases parent? with
  | none => rw [updateColsOf_none_eq]; exact hf
  | some p =>
    obtain ⟨pid, pcol⟩ := p
    rw [updateColsOf_some_eq]
    by_cases hpc : (pcol != "") = true
    · rw [if_pos hpc]
      exact nodup_keys_erasePair _ _ hf
    · rw [if_neg hpc]
      exact hf

theorem nodup_keys_seqStep (store : Store) (schemaName : String) (obj : Rec)
    (resolved colValues : List (String × JVal)) (h : (colValues.map Prod.fst).Nodup) :
    ((seqStep store schemaName obj resolved colValues).map Prod.fst).Nodup := by
  unfold seqStep
  by_cases hc : (schemaName == "check" && (objGet obj "seq").isNone
      && truthyOpt (objGet resolved "checklist_id")) = true
  · rw [if_pos hc]
    exact nodup_keys_setPair _ _ _ h
  · rw [if_neg hc]
    exact h

theorem nodup_keys_deniedStep (schemaName : String) (obj : Rec)
    (colValues : List (String × JVal)) (h : (colValues.map Prod.fst).Nodup) :
    ((deniedStep schemaName obj colValues).map Prod.fst).Nodup := by
  unfold deniedStep
  by_cases hc : (schemaName == "check" && truthyOpt (objGet obj "denied")) = true
  · rw [if_pos hc]
    exact nodup_keys_setPair _ _ _ h
  · rw [if_neg hc]
    exact h

theorem find?_map_of_pred_eq {α β : Type} (f : α → β) (p : β → Bool) (q : α → Bool)
    (l : List α) (h : ∀ a ∈ l, p (f a) = q a) :
    (l.map f).find? p = (l.find? q).map f := by
  induction l with
  | nil => rfl
  | cons hd tl ih =>
    rw [List.map_cons, List.find?, List.find?, h hd (List.mem_cons_self _ _)]
    cases hq : q hd with
    | true => rfl
    | false => exact ih (fun a ha => h a (List.mem_cons.mpr (Or.inr ha)))

theorem setTable_getTable_of_setTable (s : Store) (n : String) (t : Table) :
    setTable (setTable s n t) n (getTable (setTable s n t) n) = setTable s n t := by
  rw [getTable_setTable_self, setTable_setTable]

-- ### doSave reduction (top-level call, no children present)

/-- Skipping the child phase: a record with no child arrays folds to the
incoming store, whatever the recursive call does. -/
theorem childFold_skip (schemas : List (String × SchemaDefinition))
    (rec : Store → String → SchemaDefinition → Rec → Option (Nat × String) →
      Except SaveErr (Store × Nat))
    (schemaName : String) (obj : Rec) (rowId : Nat) :
    ∀ (cds : List ChildDef) (st : Store),
      (∀ cd ∈ cds, ∀ xs, objGet obj cd.key ≠ some (.arr xs)) →
      childFold schemas rec schemaName obj rowId cds st = .ok st := by
  intro cds
  induction cds with
  | nil => intro st _; rfl
  | cons hd tl ih =>
    intro st h
    unfold childFold
    rw [List.foldlM_cons]
    cases ho : objGet obj hd.key with
    | none =>
      exact ih st (fun cd hcd => h cd (List.mem_cons.mpr (Or.inr hcd)))
    | some v =>
      cases v with
      | null => exact ih st (fun cd hcd => h cd (List.mem_cons.mpr (Or.inr hcd)))
      | bool b => exact ih st (fun cd hcd => h cd (List.mem_cons.mpr (Or.inr hcd)))
      | num n => exact ih st (fun cd hcd => h cd (List.mem_cons.mpr (Or.inr hcd)))
      | str s => exact ih st (fun cd hcd => h cd (List.mem_cons.mpr (Or.inr hcd)))
      | obj fs => exact ih st (fun cd hcd => h cd (List.mem_cons.mpr (Or.inr hcd)))
      | arr xs => exact absurd ho (h hd (List.mem_cons_self _ _) xs)

/-- One reduced step of `doSave` at the top level (`parent? = none`) for a
generic schema whose record carries no child arrays. -/
theorem doSave_plain (schemas : List (String × SchemaDefinition)) (fuel : Nat)
    (store : Store) (schemaName : String) (schema : SchemaDefinition) (obj : Rec)
    (resolved : List (String × JVal)) (pr : Store × Nat)
    (hsl : (schemaName == "_story_link") = false)
    (hcd : (schemaName == "_check_dep") = false)
    (hdi : (schemaName == "expansion" && truthyOpt (objGet obj "_document_id")) = false)
    (hres : resolveFks store schema.fks obj = .ok resolved)
    (hrp : rowPhase store schemaName schema obj none resolved (buildColValues schema obj)
      = .ok pr)
    (hchild : ∀ cd ∈ schema.children, ∀ xs, objGet obj cd.key ≠ some (.arr xs)) :
    doSave schemas (fuel + 1) store schemaName schema obj none = .ok pr := by
  unfold doSave
  rw [hres]
  simp only [hdi, hsl, hcd, Bool.false_eq_true, if_false]
  rw [hrp]
  show (match childFold schemas (fun st2 sn sc o p => doSave schemas fuel st2 sn sc o p)
      schemaName obj pr.2 schema.children pr.1 with
    | Except.error e => Except.error e
    | Except.ok store2 => Except.ok (store2, pr.2)) = Except.ok pr
  rw [childFold_skip schemas (fun st2 sn sc o p => doSave schemas fuel st2 sn sc o p)
    schemaName obj pr.2 schema.children pr.1 hchild]

/-- The transaction wrapper around a successful `doSave`. -/
theorem save_of_doSave (schemas : List (String × SchemaDefinition)) (store : Store)
    (schemaName : String) (schema : SchemaDefinition) (obj : Rec) (pr : Store × Nat)
    (hschema : objGet schemas schemaName = some schema)
    (hds : doSave schemas (rdepth obj + 1) store schemaName schema obj none = .ok pr) :
    save schemas store schemaName obj = (pr.1, .ok pr.2) := by
  unfold save
  rw [hschema]
  show (match doSave schemas (rdepth obj + 1) store schemaName schema obj none with
    | .ok p => (p.1, Except.ok p.2)
    | .error e => (store, Except.error e)) = (pr.1, Except.ok pr.2)
  rw [hds]

/-- C1 — counterexample. `c1R1` and `c1R2` share the natural key
`(CL, ann, E.m)` and neither mentions `seq`. The claim says the row after
the second save holds `R1`'s fields overridden only by fields explicitly
present in `R2`; but the check-schema seq auto-increment runs on every
save before the row lookup, so the second save rewrites `seq` from 1 to 2
even though `seq` appears in neither record (while `description`, present
only in `R1`, is correctly kept). -/
theorem C1_counterexample :
    objGet c1R1 "seq" = none ∧ objGet c1R2 "seq" = none ∧
    (getTable c1s2 "checks").rows.length = 1 ∧
    objGet ((getTable c1s2 "checks").rows.headD default).cells "description" =
      some (.text "first") ∧
    objGet ((getTable c1s1 "checks").rows.headD default).cells "seq" = some (.int 1) ∧
    objGet ((getTable c1s2 "checks").rows.headD default).cells "seq" = some (.int 2) := by
  exact ⟨by rfl, by rfl, by rfl, by rfl, by rfl, by rfl⟩

/-- C2 — counterexample. Saving the identical check record twice returns
the same id and creates no second row, but the second call changes a
column value beyond what the first call established: `seq` goes from 1 to
2, because the auto-increment query runs before the existing-row lookup
and its result lands in the UPDATE SET list. -/
theorem C2_counterexample :
    (save SCHEMAS c1Store "check" c2R).2 = .ok 1 ∧
    (save SCHEMAS c2s1 "check" c2R).2 = .ok 1 ∧
    (getTable c2s2 "checks").rows.length = 1 ∧
    objGet ((getTable c2s1 "checks").rows.headD default).cells "seq" = some (.int 1) ∧
    objGet ((getTable c2s2 "checks").rows.headD default).cells "seq" = some (.int 2) ∧
    c2s2 ≠ c2s1 := by
  exact ⟨by rfl, by rfl, by rfl, by rfl, by rfl, by decide⟩

theorem insertCellsOf_none_eq (schema : SchemaDefinition)
    (cvF resolved : List (String × JVal)) :
    insertCellsOf schema cvF resolved none =
      objMerge (objMerge (schema.defaults.foldl (fun acc d =>
        match objGet schema.columns d.1 with
        | some sqlCol =>
          if sqlCol != "" && (objGet cvF sqlCol).isNone then
            setPair acc sqlCol
              (if schema.booleans.contains d.1 then JVal.num (cond (truthy d.2) 1 0) else d.2)
          else acc
        | none => acc) []) cvF) resolved := rfl

/-- Every pair of the UPDATE SET list already sits, with the same value, in
the INSERT cell list computed from the same inputs. -/
theorem insertCells_covers_updateCols (schema : SchemaDefinition)
    (resolved : List (String × JVal)) (whereConds : List (String × DbVal))
    (cvF : List (String × JVal))
    (hnr : (resolved.map Prod.fst).Nodup)
    (hncv : (cvF.map Prod.fst).Nodup)
    (k : String) (v : JVal)
    (hkv : (k, v) ∈ updateColsOf whereConds none cvF resolved) :
    objGet (insertCellsOf schema cvF resolved none) k = some v := by
  have hnu := nodup_keys_updateColsOf whereConds none cvF resolved hncv
  have hg := objGet_of_mem_nodup _ k v hnu hkv
  rw [updateColsOf_none_eq, objGet_foldl_erase] at hg
  by_cases hany : (whereConds.any (fun c => c.1 == k)) = true
  · rw [if_pos hany] at hg
    cases hg
  · rw [if_neg hany, objGet_objMerge resolved cvF k hnr] at hg
    rw [insertCellsOf_none_eq, objGet_objMerge resolved _ k hnr,
      objGet_objMerge cvF _ k hncv]
    cases hr : objGet resolved k with
    | some w =>
      rw [hr] at hg
      have hw : w = v := by simpa using hg
      rw [hw]
      rfl
    | none =>
      rw [hr] at hg
      rw [Option.none_or] at hg
      rw [hg]
      rfl

/-- Replaying the SET list over the freshly inserted cells is a no-op. -/
theorem applySets_insert_noop (schema : SchemaDefinition)
    (resolved : List (String × JVal)) (whereConds : List (String × DbVal))
    (cvF : List (String × JVal))
    (hnr : (resolved.map Prod.fst).Nodup)
    (hncv : (cvF.map Prod.fst).Nodup) :
    applySets ((insertCellsOf schema cvF resolved none).map (fun p => (p.1, toDb p.2)))
      ((updateColsOf whereConds none cvF resolved).map (fun p => (p.1, toDb p.2))) =
      (insertCellsOf schema cvF resolved none).map (fun p => (p.1, toDb p.2)) := by
  apply applySets_noop
  intro p hp
  obtain ⟨q, hq, hpq⟩ := List.mem_map.mp hp
  rw [← hpq]
  show objGet ((insertCellsOf schema cvF resolved none).map
    (fun p => (p.1, toDb p.2))) q.1 = some (toDb q.2)
  rw [objGet_map_value,
    insertCells_covers_updateCols schema resolved whereConds cvF hnr hncv q.1 q.2 hq]
  rfl

/-- After inserting a row that matches the natural-key tuple into a store
where nothing matched, the lookup finds exactly the new row. -/
theorem selectIdWhere_insert_fresh (store : Store) (tab : String)
    (cells : List (String × DbVal)) (conds : List (String × DbVal))
    (hlook : selectIdWhere store tab conds = none)
    (hmatch : matchesWhere ⟨(getTable store tab).nextId, cells⟩ conds = true) :
    selectIdWhere (insertRow store tab cells).1 tab conds
      = some (getTable store tab).nextId := by
  unfold selectIdWhere at hlook ⊢
  rw [getTable_insertRow_self]
  have hf0 : (getTable store tab).rows.find? (fun r => matchesWhere r conds) = none :=
    Option.map_eq_none'.mp hlook
  rw [find?_append_none _ _ _ hf0]
  have hfind : List.find? (fun r => matchesWhere r conds)
      [⟨(getTable store tab).nextId, cells⟩] =
      some ⟨(getTable store tab).nextId, cells⟩ := by
    show (match matchesWhere ⟨(getTable store tab).nextId, cells⟩ conds with
      | true => some (⟨(getTable store tab).nextId, cells⟩ : Row)
      | false => List.find? (fun r => matchesWhere r conds) []) =
      some (⟨(getTable store tab).nextId, cells⟩ : Row)
    rw [hmatch]
  rw [hfind]
  rfl

/-- A no-op UPDATE aimed at the row just inserted leaves the store as the
insert left it. -/
theorem updateRow_insert_noop (store : Store) (tab : String)
    (cells sets : List (String × DbVal))
    (hfresh : ∀ r ∈ (getTable store tab).rows, r.id ≠ (getTable store tab).nextId)
    (hnoop : applySets cells sets = cells) :
    updateRow (insertRow store tab cells).1 tab (getTable store tab).nextId sets
      = (insertRow store tab cells).1 := by
  show setTable (insertRow store tab cells).1 tab
    ⟨(getTable (insertRow store tab cells).1 tab).rows.map
      (fun (r : Row) => if r.id == (getTable store tab).nextId
        then ⟨r.id, applySets r.cells sets⟩ else r),
     (getTable (insertRow store tab cells).1 tab).nextId⟩ = (insertRow store tab cells).1
  rw [getTable_insertRow_self]
  have hmap : ((getTable store tab).rows
        ++ [(⟨(getTable store tab).nextId, cells⟩ : Row)]).map
      (fun (r : Row) => if r.id == (getTable store tab).nextId
        then ⟨r.id, applySets r.cells sets⟩ else r)
      = (getTable store tab).rows ++ [(⟨(getTable store tab).nextId, cells⟩ : Row)] := by
    rw [List.map_append]
    congr 1
    · apply map_eq_self_of_forall
      intro r hr
      have hb : (r.id == (getTable store tab).nextId) = false := by
        simpa using hfresh r hr
      simp only [hb, Bool.false_eq_true, if_false]
    · simp only [List.map_cons, List.map_nil]
      have hb : ((⟨(getTable store tab).nextId, cells⟩ : Row).id
          == (getTable store tab).nextId) = true := by simp
      simp only [hb, if_true, hnoop]
  rw [hmap]
  show setTable (setTable store tab
      ⟨(getTable store tab).rows ++ [⟨(getTable store tab).nextId, cells⟩],
       (getTable store tab).nextId + 1⟩) tab
      ⟨(getTable store tab).rows ++ [⟨(getTable store tab).nextId, cells⟩],
       (getTable store tab).nextId + 1⟩ =
    setTable store tab
      ⟨(getTable store tab).rows ++ [⟨(getTable store tab).nextId, cells⟩],
       (getTable store tab).nextId + 1⟩
  exact setTable_setTable _ _ _ _

/-- C1 — amended. Coalescing, as the update path actually implements it:
when the natural-key lookup of `rowPhase` matches a row, the result is an
UPDATE of exactly that surrogate id whose SET list is `updateColsOf` — the
provided scalar columns after the check-`seq`/`denied` synthesis, merged
with the resolved FKs, minus every natural-key lookup column and the
parent-linkage column. Hence: other tables are untouched, no row is added,
every SET key stems from a provided (or synthesized) column, natural-key
and parent-linkage columns are never in the SET list, any cell outside the
SET list keeps its prior value, and any cell in the SET list gets exactly
the computed value. (The original claim fails only because `seqStep` can
synthesize `seq` into the SET list for checks saved without one — see the
counterexample.) -/
theorem C1_theorem
    (store : Store) (schemaName : String) (schema : SchemaDefinition) (obj : Rec)
    (parent? : Option (Nat × String))
    (resolved colValues resolvedF colValuesF : List (String × JVal))
    (whereConds : List (String × DbVal)) (u : List (String × JVal))
    (sets : List (String × DbVal)) (rowId : Nat)
    (hmeta : (schemaName == "metadata") = false)
    (h3b : expansionParentStep store schemaName obj parent? resolved = .ok resolvedF)
    (hwc : whereConds = buildWhere schema resolvedF colValues parent?)
    (hcv : colValuesF =
      deniedStep schemaName obj (seqStep store schemaName obj resolvedF colValues))
    (hu : u = updateColsOf whereConds parent? colValuesF resolvedF)
    (hsets : sets = u.map (fun p => (p.1, toDb p.2)))
    (hne : whereConds.isEmpty = false)
    (hfound : selectIdWhere store schema.table whereConds = some rowId)
    (hune : u.isEmpty = false)
    (hnc : (colValues.map Prod.fst).Nodup) :
    rowPhase store schemaName schema obj parent? resolved colValues =
      .ok (updateRow store schema.table rowId sets, rowId) ∧
    (∀ t, t ≠ schema.table →
      getTable (updateRow store schema.table rowId sets) t = getTable store t) ∧
    getTable (updateRow store schema.table rowId sets) schema.table =
      ⟨(getTable store schema.table).rows.map
        (fun r => if r.id == rowId then ⟨r.id, applySets r.cells sets⟩ else r),
       (getTable store schema.table).nextId⟩ ∧
    (∀ k ∈ u.map Prod.fst,
      (k ∈ colValuesF.map Prod.fst ∨ k ∈ resolvedF.map Prod.fst) ∧
      (∀ c ∈ whereConds, k ≠ c.1) ∧
      (∀ pid pcol, parent? = some (pid, pcol) → (pcol != "") = true → k ≠ pcol)) ∧
    (∀ (cells : List (String × DbVal)) (k : String), k ∉ u.map Prod.fst →
      objGet (applySets cells sets) k = objGet cells k) ∧
    (∀ (cells : List (String × DbVal)) (k : String) (v : JVal), (k, v) ∈ u →
      objGet (applySets cells sets) k = some (toDb v)) := by
  subst hsets
  subst hu
  subst hcv
  subst hwc
  have hnu : ((updateColsOf (buildWhere schema resolvedF colValues parent?) parent?
      (deniedStep schemaName obj (seqStep store schemaName obj resolvedF colValues))
      resolvedF).map Prod.fst).Nodup :=
    nodup_keys_updateColsOf _ _ _ _
      (nodup_keys_deniedStep _ _ _ (nodup_keys_seqStep _ _ _ _ _ hnc))
  refine ⟨?_, ?_, ?_, ?_, ?_, ?_⟩
  · rw [rowPhase_found store schemaName schema obj parent? resolved colValues resolvedF
      rowId hmeta h3b hne hfound]
    simp only [hune, Bool.false_eq_true, if_false]
  · intro t ht
    exact getTable_updateRow_ne _ _ _ _ t ht
  · exact getTable_updateRow_self _ _ _ _
  · intro k hk
    exact mem_keys_updateColsOf _ _ _ _ k hk
  · intro cells k hk
    apply objGet_applySets_not_mem
    rw [keys_map_value]
    exact hk
  · intro cells k v hkv
    apply objGet_applySets_mem
    · rw [keys_map_value]
      exact hnu
    · exact List.mem_map_of_mem _ hkv

/-- C1 — witness. The frame theorem applied to a concrete checklist
update: the matched row 3 gets SET description = 'new' only; the
natural-key column `name` is excluded from the SET list. -/
theorem C1_witness :
    rowPhase c1wStore "checklist" checklistSchema c1wObj none []
        [("name", JVal.str "CL"), ("description", JVal.str "new")] =
      .ok (updateRow c1wStore "checklists" 3 [("description", DbVal.text "new")], 3) ∧
    (∀ t, t ≠ "checklists" →
      getTable (updateRow c1wStore "checklists" 3 [("description", DbVal.text "new")]) t
        = getTable c1wStore t) ∧
    getTable (updateRow c1wStore "checklists" 3 [("description", DbVal.text "new")])
        "checklists" =
      ⟨(getTable c1wStore "checklists").rows.map
        (fun r => if r.id == 3 then
          ⟨r.id, applySets r.cells [("description", DbVal.text "new")]⟩ else r),
       (getTable c1wStore "checklists").nextId⟩ ∧
    (∀ k ∈ ([("description", JVal.str "new")].map Prod.fst : List String),
      (k ∈ ([("name", JVal.str "CL"), ("description", JVal.str "new")].map Prod.fst :
          List String) ∨
       k ∈ (([] : List (String × JVal)).map Prod.fst : List String)) ∧
      (∀ c ∈ [("name", DbVal.text "CL")], k ≠ c.1) ∧
      (∀ pid pcol, (none : Option (Nat × String)) = some (pid, pcol) →
        (pcol != "") = true → k ≠ pcol)) ∧
    (∀ (cells : List (String × DbVal)) (k : String),
      k ∉ ([("description", JVal.str "new")].map Prod.fst : List String) →
      objGet (applySets cells [("description", DbVal.text "new")]) k = objGet cells k) ∧
    (∀ (cells : List (String × DbVal)) (k : String) (v : JVal),
      (k, v) ∈ [("description", JVal.str "new")] →
      objGet (applySets cells [("description", DbVal.text "new")]) k
        = some (toDb v)) := by
  exact C1_theorem c1wStore "checklist" checklistSchema c1wObj none
    [] [("name", JVal.str "CL"), ("description", JVal.str "new")] []
    [("name", JVal.str "CL"), ("description", JVal.str "new")]
    [("name", DbVal.text "CL")] [("description", JVal.str "new")]
    [("description", DbVal.text "new")] 3
    (by rfl) (by rfl) (by rfl) (by rfl) (by rfl) (by rfl) (by rfl) (by rfl)
    (by rfl) (by decide)

/-- C2 — amended. Idempotence of save, as the engine actually delivers it:
for a top-level save of a generic schema (not `_story_link`, `_check_dep`
or `metadata`, no expansion-parent or injected-document special case) whose
record carries no child arrays, whose FK rules do not read the schema's own
table, whose natural-key tuple is non-empty and matches the row the first
save inserts, a second identical save finds that row, computes an UPDATE
SET list each of whose pairs already holds in the inserted cells, and so
returns the same surrogate id with the store byte-for-byte unchanged — no
second row, no column change. The check-`seq` recomputation is excluded by
hypothesis (`seq` must be present for checks): without it idempotence fails,
see the counterexample. -/
theorem C2_theorem
    (schemas : List (String × SchemaDefinition)) (store0 : Store)
    (schemaName : String) (schema : SchemaDefinition) (obj : Rec)
    (resolved : List (String × JVal)) (store1 : Store) (id1 : Nat)
    (hschema : objGet schemas schemaName = some schema)
    (hsl : (schemaName == "_story_link") = false)
    (hcd : (schemaName == "_check_dep") = false)
    (hmeta : (schemaName == "metadata") = false)
    (hexp1 : (schemaName == "expansion" && truthyOpt (objGet obj "parent")) = false)
    (hexp2 : (schemaName == "expansion" && truthyOpt (objGet obj "_document_id")) = false)
    (hseq : (schemaName == "check" && (objGet obj "seq").isNone) = false)
    (hres0 : resolveFks store0 schema.fks obj = .ok resolved)
    (hfk : ∀ fk ∈ schema.fks, schema.table ∉ fkTables fk)
    (hnr : (resolved.map Prod.fst).Nodup)
    (hne : (buildWhere schema resolved (buildColValues schema obj) none).isEmpty = false)
    (hlook : selectIdWhere store0 schema.table
      (buildWhere schema resolved (buildColValues schema obj) none) = none)
    (hid : id1 = (getTable store0 schema.table).nextId)
    (hstore1 : store1 = (insertRow store0 schema.table
      ((insertCellsOf schema (deniedStep schemaName obj (buildColValues schema obj))
          resolved none).map (fun p => (p.1, toDb p.2)))).1)
    (hmatch : matchesWhere
      ⟨id1, (insertCellsOf schema (deniedStep schemaName obj (buildColValues schema obj))
          resolved none).map (fun p => (p.1, toDb p.2))⟩
      (buildWhere schema resolved (buildColValues schema obj) none) = true)
    (hfresh : ∀ r ∈ (getTable store0 schema.table).rows, r.id ≠ id1)
    (hchild : ∀ cd ∈ schema.children, ∀ xs, objGet obj cd.key ≠ some (.arr xs)) :
    save schemas store0 schemaName obj = (store1, .ok id1) ∧
    save schemas store1 schemaName obj = (store1, .ok id1) := by
  subst hid
  -- Run 1: the insert.
  have h3b0 : expansionParentStep store0 schemaName obj none resolved = .ok resolved :=
    expansionParentStep_id _ _ _ _ _ hexp1
  have hrp1 := rowPhase_insert store0 schemaName schema obj none resolved
    (buildColValues schema obj) resolved hmeta h3b0 hne hlook
  rw [seqStep_id store0 schemaName obj resolved (buildColValues schema obj) hseq] at hrp1
  have hds1 := doSave_plain schemas (rdepth obj) store0 schemaName schema obj resolved
    _ hsl hcd hexp2 hres0 hrp1 hchild
  have hsave1 := save_of_doSave schemas store0 schemaName schema obj _ hschema hds1
  have hA : save schemas store0 schemaName obj =
      (store1, .ok ((getTable store0 schema.table).nextId)) := by
    rw [hsave1, insertRow_snd, ← hstore1]
  -- Run 2: the coalescing no-op update.
  have hcong : ∀ fk ∈ schema.fks, ∀ t ∈ fkTables fk,
      getTable store1 t = getTable store0 t := by
    intro fk hfkm t ht
    have htab : t ≠ schema.table := fun he => hfk fk hfkm (he ▸ ht)
    rw [hstore1]
    exact getTable_insertRow_ne _ _ _ t htab
  have hres1 : resolveFks store1 schema.fks obj = .ok resolved := by
    rw [resolveFks_congr store1 store0 schema.fks obj hcong]
    exact hres0
  have hlook2 : selectIdWhere store1 schema.table
      (buildWhere schema resolved (buildColValues schema obj) none)
      = some ((getTable store0 schema.table).nextId) := by
    rw [hstore1]
    exact selectIdWhere_insert_fresh store0 schema.table _ _ hlook hmatch
  have h3b1 : expansionParentStep store1 schemaName obj none resolved = .ok resolved :=
    expansionParentStep_id _ _ _ _ _ hexp1
  have hrp2 := rowPhase_found store1 schemaName schema obj none resolved
    (buildColValues schema obj) resolved ((getTable store0 schema.table).nextId)
    hmeta h3b1 hne hlook2
  rw [seqStep_id store1 schemaName obj resolved (buildColValues schema obj) hseq] at hrp2
  have hncv : ((deniedStep schemaName obj (buildColValues schema obj)).map Prod.fst).Nodup :=
    nodup_keys_deniedStep _ _ _ (nodup_keys_buildColValues schema obj)
  have hnoop := applySets_insert_noop schema resolved
    (buildWhere schema resolved (buildColValues schema obj) none)
    (deniedStep schemaName obj (buildColValues schema obj)) hnr hncv
  have hupd : updateRow store1 schema.table ((getTable store0 schema.table).nextId)
      ((updateColsOf (buildWhere schema resolved (buildColValues schema obj) none) none
        (deniedStep schemaName obj (buildColValues schema obj)) resolved).map
        (fun p => (p.1, toDb p.2))) = store1 := by
    rw [hstore1]
    exact updateRow_insert_noop store0 schema.table _ _ hfresh hnoop
  rw [hupd, ite_self] at hrp2
  have hds2 := doSave_plain schemas (rdepth obj) store1 schemaName schema obj resolved
    (store1, (getTable store0 schema.table).nextId) hsl hcd hexp2 hres1 hrp2 hchild
  have hB := save_of_doSave schemas store1 schemaName schema obj _ hschema hds2
  exact ⟨hA, hB⟩

/-- C2 — witness. Saving the same checklist twice into an empty store:
the first call inserts row 1, the second returns the identical store and
the same id. -/
theorem C2_witness :
    save SCHEMAS ([] : Store) "checklist" c2wObj = (c2wStore1, .ok 1) ∧
    save SCHEMAS c2wStore1 "checklist" c2wObj = (c2wStore1, .ok 1) :=
  C2_theorem SCHEMAS [] "checklist" checklistSchema c2wObj [] c2wStore1 1
    (by rfl) (by rfl) (by rfl) (by rfl) (by rfl) (by rfl) (by rfl) (by rfl)
    (by intro fk hfk; cases hfk)
    (by decide) (by rfl) (by rfl) (by rfl) (by rfl) (by rfl)
    (by intro r hr; cases hr)
    (by
      intro cd hcd xs h
      have hcd' : cd ∈ [(⟨"checks", "check", "checklist_id", none⟩ : ChildDef)] := hcd
      rw [List.mem_singleton] at hcd'
      subst hcd'
      exact Option.noConfusion h)

-- ### C6/C7: change-target chains

theorem walkChain_acc_prefix (m : List Exp) :
    ∀ (fuel : Nat) (st : Option Nat) (acc l : List (String × String)),
      walkChain m fuel st acc = some l → ∃ t, l = acc ++ t := by
  intro fuel
  induction fuel with
  | zero =>
    intro st acc l h
    cases st with
    | none => rw [walkChain_none] at h; cases h; exact ⟨[], by simp⟩
    | some c => exact absurd h (by simp [walkChain])
  | succ fuel ih =>
    intro st acc l h
    cases st with
    | none => rw [walkChain_none] at h; cases h; exact ⟨[], by simp⟩
    | some c =>
      rw [show walkChain m (fuel + 1) (some c) acc =
        (match m.find? (fun x => x.id == c) with
         | none => some acc
         | some p => walkChain m fuel p.parentExpansionId
             (acc ++ [(p.name, p.foreignKey)])) from rfl] at h
      cases hf : m.find? (fun x => x.id == c) with
      | none => rw [hf] at h; cases h; exact ⟨[], by simp⟩
      | some p =>
        rw [hf] at h
        obtain ⟨t, ht⟩ := ih p.parentExpansionId (acc ++ [(p.name, p.foreignKey)]) l h
        exact ⟨[(p.name, p.foreignKey)] ++ t, by simp [ht]⟩

/-- The chain computed for an expansion row ends at that row's own edge. -/
theorem chainOf_getLast (m : List Exp) (ex : Exp) (fuel : Nat)
    (chain : List (String × String)) (h : chainOf m ex fuel = some chain) :
    chain.getLast? = some (ex.name, ex.foreignKey) := by
  unfold chainOf at h
  cases hw : walkChain m fuel ex.parentExpansionId [(ex.name, ex.foreignKey)] with
  | none => rw [hw] at h; cases h
  | some l =>
    rw [hw] at h
    cases h
    obtain ⟨t, ht⟩ := walkChain_acc_prefix m fuel ex.parentExpansionId _ l hw
    rw [ht]
    simp only [List.reverse_append]
    rw [show (([(ex.name, ex.foreignKey)] : List (String × String)).reverse =
      [(ex.name, ex.foreignKey)]) from rfl]
    exact List.getLast?_concat _

/-- C6: every emitted change target is shaped exactly as the claim says:
a root-document entry carries path `null` and keys `["id"]`; an
expansion-chain entry carries the dotted root-first path (names joined with
`.`), the root edge's foreign key first, then the remaining edges' keys in
chain order, the chain ending at the leaf's own edge. On the concrete
tasks/comments configuration the `comments` leaf yields `"tasks.comments"`
with keys `["project_id", "task_id"]` and the root entity yields `null` /
`["id"]`. -/
theorem C6_theorem :
    (∀ (docs : List DocRow) (m : List Exp) (eid fuel : Nat)
        (q : Option Exp × ChangeTarget),
      q ∈ entityChangesL docs m eid fuel →
      (q.1 = none → q.2.path = none ∧ q.2.fks = ["id"] ∧
        ∃ d ∈ docs, d.entityId = eid ∧ q.2.doc = d.name ∧ q.2.collection = d.collection) ∧
      (∀ ex, q.1 = some ex → ∃ chain, chainOf m ex fuel = some chain ∧
        q.2.path = some (String.intercalate "." (chain.map (fun c => c.1))) ∧
        q.2.fks = (chain.headD ("", "")).2 :: (chain.drop 1).map (fun c => c.2) ∧
        chain.getLast? = some (ex.name, ex.foreignKey))) ∧
    entityChanges demoDocs demoExps 30 (demoExps.length + 1) =
      [⟨"ProjectDoc", some "tasks.comments", false, ["project_id", "task_id"]⟩] ∧
    entityChanges demoDocs demoExps 20 (demoExps.length + 1) =
      [⟨"ProjectDoc", some "tasks", false, ["project_id"]⟩] ∧
    entityChanges demoDocs demoExps 10 (demoExps.length + 1) =
      [⟨"ProjectDoc", none, true, ["id"]⟩] := by
  refine ⟨?_, by decide, by decide, by decide⟩
  intro docs m eid fuel q hq
  unfold entityChangesL at hq
  rcases List.mem_append.mp hq with hleft | hright
  · obtain ⟨d, hd, hqd⟩ := List.mem_map.mp hleft
    constructor
    · intro _
      rw [← hqd]
      have hdf := List.mem_filter.mp hd
      refine ⟨rfl, rfl, d, hdf.1, by simpa using hdf.2, rfl, rfl⟩
    · intro ex hex
      rw [← hqd] at hex
      exact absurd hex (by simp)
  · obtain ⟨ex0, hex0, hf⟩ := List.mem_filterMap.mp hright
    cases hd : docs.find? (fun d => d.id == ex0.documentId) with
    | none => rw [hd] at hf; cases hf
    | some d =>
      rw [hd] at hf
      cases hch : chainOf m ex0 fuel with
      | none => rw [hch] at hf; cases hf
      | some chain =>
        rw [hch] at hf
        cases hf
        constructor
        · intro hnone
          exact absurd hnone (by simp)
        · intro ex hex
          have hxx : ex = ex0 := by
            have := hex
            simp at this
            exact this.symm
          subst hxx
          exact ⟨chain, hch, rfl, rfl, chainOf_getLast m ex fuel chain hch⟩

/-- C6 — witness: the general shape theorem applied to the nested
`comments` row of the concrete configuration. -/
theorem C6_witness :
    ∃ chain, chainOf demoExps ⟨2, "comments", "task_id", some 1, 30, 1, false⟩
        (demoExps.length + 1) = some chain ∧
      (some "tasks.comments" : Option String) =
        some (String.intercalate "." (chain.map (fun c => c.1))) ∧
      (["project_id", "task_id"] : List String) =
        (chain.headD ("", "")).2 :: (chain.drop 1).map (fun c => c.2) ∧
      chain.getLast? = some ("comments", "task_id") :=
  ((C6_theorem.1 demoDocs demoExps 30 (demoExps.length + 1)
    (some ⟨2, "comments", "task_id", some 1, 30, 1, false⟩,
     ⟨"ProjectDoc", some "tasks.comments", false, ["project_id", "task_id"]⟩)
    (by decide)).2 ⟨2, "comments", "task_id", some 1, 30, 1, false⟩ rfl)

/-- C7: no change target is ever computed with a `belongs_to` edge as its
target — every contributing leaf has `belongsTo = false`, on both the
entity side and the document side — yet such an edge may still appear as a
parent link in another edge's chain: in the concrete configuration the
back-reference `owner` edge contributes nothing for its own entity (40)
but shows up inside the `pets` chain (`"owner.pets"`). -/
theorem C7_theorem :
    (∀ (docs : List DocRow) (m : List Exp) (eid fuel : Nat) (ex : Exp) (c : ChangeTarget),
      (some ex, c) ∈ entityChangesL docs m eid fuel → ex.belongsTo = false) ∧
    (∀ (doc : DocRow) (den : String) (ents : List (Nat × String)) (m : List Exp)
        (fuel : Nat) (ex : Exp) (c : ChangedBy),
      (some ex, c) ∈ documentChangedByL doc den ents m fuel → ex.belongsTo = false) ∧
    entityChanges c7docs c7exps 50 (c7exps.length + 1) =
      [⟨"D", some "owner.pets", false, ["owner_id", "pet_id"]⟩] ∧
    entityChanges c7docs c7exps 40 (c7exps.length + 1) = [] ∧
    (⟨1, "owner", "owner_id", none, 40, 1, true⟩ : Exp) ∈ c7exps ∧
    (⟨1, "owner", "owner_id", none, 40, 1, true⟩ : Exp).belongsTo = true := by
  refine ⟨?_, ?_, by decide, by decide, by decide, by decide⟩
  · intro docs m eid fuel ex c hq
    unfold entityChangesL at hq
    rcases List.mem_append.mp hq with hleft | hright
    · obtain ⟨d, _, hqd⟩ := List.mem_map.mp hleft
      exact absurd (congrArg Prod.fst hqd) (by simp)
    · obtain ⟨ex0, hex0, hf⟩ := List.mem_filterMap.mp hright
      have hbel : ex0.belongsTo = false := by
        have := (List.mem_filter.mp hex0).2
        simp [entityExpsFor] at this ⊢
        exact this.2
      cases hd : docs.find? (fun d => d.id == ex0.documentId) with
      | none => rw [hd] at hf; cases hf
      | some d =>
        rw [hd] at hf
        cases hch : chainOf m ex0 fuel with
        | none => rw [hch] at hf; cases hf
        | some chain =>
          rw [hch] at hf
          cases hf
          exact hbel
  · intro doc den ents m fuel ex c hq
    unfold documentChangedByL at hq
    rcases List.mem_cons.mp hq with hhead | hrest
    · exact absurd (congrArg (fun p => p.1) hhead) (by simp)
    · obtain ⟨ex0, hex0, hf⟩ := List.mem_filterMap.mp hrest
      have hbel : ex0.belongsTo = false := by
        have := (List.mem_filter.mp hex0).2
        simp at this
        exact this.2
      cases he : ents.find? (fun e => e.1 == ex0.entityId) with
      | none => rw [he] at hf; cases hf
      | some e =>
        rw [he] at hf
        cases hch : chainOf (m.filter (fun x => x.documentId == doc.id)) ex0 fuel with
        | none =>
          simp only [hch] at hf
          exact Option.noConfusion hf
        | some chain =>
          simp only [hch, Option.some.injEq, Prod.mk.injEq] at hf
          rw [← hf.1]
          exact hbel

/-- C7 — witness: the aggregating `pets` entry of the concrete configuration
indeed has a non-back-reference leaf. -/
theorem C7_witness :
    (⟨2, "pets", "pet_id", some 1, 50, 1, false⟩ : Exp).belongsTo = false :=
  C7_theorem.1 c7docs c7exps 50 (c7exps.length + 1)
    ⟨2, "pets", "pet_id", some 1, 50, 1, false⟩
    ⟨"D", some "owner.pets", false, ["owner_id", "pet_id"]⟩ (by decide)

/-- C3 — counterexample. `method` is part of the check schema's natural key
and is neither supplied nor resolvable, yet the save does not fail with any
missing-natural-key error: it silently drops the component from the lookup
tuple, succeeds, and inserts a row. -/
theorem C3_counterexample :
    objGet c3obj "method" = none ∧
    checkSchema.naturalKey = ["checklist", "actor", "method"] ∧
    (save SCHEMAS c3Store "check" c3obj).2 = .ok 1 ∧
    (getTable (save SCHEMAS c3Store "check" c3obj).1 "checks").rows.length = 1 := by
  exact ⟨by rfl, by rfl, by rfl, by rfl⟩

/-- C3 — amended. The engine never checks natural-key completeness: in
`doSave` an unresolvable natural-key component is silently omitted from the
lookup tuple and the operation proceeds. `del` raises its only
natural-key error (`Cannot delete: no natural key provided`) exactly when
the computed tuple is entirely empty — an `.error` result carries no store,
so nothing is deleted in that case; any partially resolved tuple proceeds. -/
theorem C3_theorem (schemas : List (String × SchemaDefinition)) (store : Store)
    (schemaName : String) (schema : SchemaDefinition) (obj : Rec)
    (resolved : List (String × JVal))
    (hschema : objGet schemas schemaName = some schema)
    (hres : resolveFks store schema.fks obj = .ok resolved) :
    del schemas store schemaName obj = .error .noNaturalKey ↔
      delWhere schema resolved obj = [] := by
  unfold del
  rw [hschema]
  simp only [bind, Except.bind, hres]
  by_cases hW : (delWhere schema resolved obj).isEmpty
  · rw [if_pos hW]
    simp [List.isEmpty_iff.mp hW]
  · rw [if_neg hW]
    constructor
    · intro h
      exact absurd h (by simp [pure, Except.pure])
    · intro h
      exact absurd (List.isEmpty_iff.mpr h) hW

/-- C3 — witness: the one kind of tuple that is entirely empty: the internal
`_check_dep` schema maps no natural-key field to a column, so deleting with
any record raises the error (and deletes nothing). -/
theorem C3_witness : del SCHEMAS [] "_check_dep" [] = .error .noNaturalKey :=
  (C3_theorem SCHEMAS [] "_check_dep" checkDepSchema [] [] (by rfl) (by rfl)).mpr (by rfl)

-- ### C10: story-link method targets without a separator

/-- The `method` branch of `resolveTarget`, with the separator test surfaced. -/
theorem resolveTarget_method_eq (store : Store) (name : String) :
    resolveTarget store "method" name =
      (if jsContainsDot name = true then
        match selectIdWhere store "entities"
            [("name", .text ((jsSplitDot name).getD 0 ""))] with
        | none => .error (.targetNotFound "entity" ((jsSplitDot name).getD 0 ""))
        | some eid =>
          match selectIdWhere store "methods"
              [("entity_id", .int (eid : Int)), ("name", .text ((jsSplitDot name).getD 1 ""))] with
          | none => .error (.targetNotFoundScoped "method" ((jsSplitDot name).getD 1 "")
              ((jsSplitDot name).getD 0 ""))
          | some mid => .ok mid
      else
        match selectIdWhere store "methods" [("name", .text name)] with
        | some i => .ok i
        | none => .error (.targetNotFound "method" name)) := rfl

/-- C10: saving a story link of target type `method`: a dotted name is
resolved entity-then-method; a dot-free name is resolved by a global
lookup on the method name alone — the first stored method with that name,
whatever entity owns it — and no malformed-reference error exists on
either path. -/
theorem C10_theorem (store : Store) (name : String) :
    (jsContainsDot name = false →
      resolveTarget store "method" name =
        match selectIdWhere store "methods" [("name", .text name)] with
        | some i => .ok i
        | none => .error (.targetNotFound "method" name)) ∧
    (∀ s, resolveTarget store "method" name ≠ .error (.malformed s)) ∧
    (jsContainsDot name = true →
      resolveTarget store "method" name =
        match selectIdWhere store "entities"
            [("name", .text ((jsSplitDot name).getD 0 ""))] with
        | none => .error (.targetNotFound "entity" ((jsSplitDot name).getD 0 ""))
        | some eid =>
          match selectIdWhere store "methods"
              [("entity_id", .int (eid : Int)), ("name", .text ((jsSplitDot name).getD 1 ""))] with
          | none => .error (.targetNotFoundScoped "method" ((jsSplitDot name).getD 1 "")
              ((jsSplitDot name).getD 0 ""))
          | some mid => .ok mid) := by
  refine ⟨?_, ?_, ?_⟩
  · intro h
    rw [resolveTarget_method_eq, if_neg (by simp [h])]
  · intro s h
    rw [resolveTarget_method_eq] at h
    by_cases hc : jsContainsDot name = true
    · rw [if_pos hc] at h
      split at h
      · exact absurd h (by simp)
      · split at h
        · exact absurd h (by simp)
        · exact absurd h (by simp)
    · rw [if_neg hc] at h
      split at h
      · exact absurd h (by simp)
      · exact absurd h (by simp)
  · intro h
    rw [resolveTarget_method_eq, if_pos h]

-- ### C8: polymorphic story-link cleanup on delete

theorem getTable_deleteWhere_ne (s : Store) (tab : String) (conds : List (String × DbVal))
    (n : String) (h : n ≠ tab) : getTable (deleteWhere s tab conds) n = getTable s n := by
  simp only [deleteWhere]
  exact getTable_setTable_ne _ _ _ _ h

theorem mem_deleteWhere_not_matches (s : Store) (tab : String)
    (conds : List (String × DbVal)) (r : Row) :
    r ∈ (getTable (deleteWhere s tab conds) tab).rows → matchesWhere r conds = false := by
  simp only [deleteWhere, getTable_setTable_self]
  intro hmem
  have := (List.mem_filter.mp hmem).2
  simpa using this

/-- C8 — counterexample. `notification` participates in the polymorphic
`(kind, id)` story-link scheme (`resolveTarget` resolves notification
targets), yet deleting a notification performs no story-link cleanup: the
link to `(notification, 1)` survives the delete of notification id 1. -/
theorem C8_counterexample :
    del SCHEMAS c8NStore "notification" [("method", .str "E.m"), ("channel", .str "c")] =
      .ok c8NStoreAfter ∧
    (getTable c8NStoreAfter "notifications").rows = [] ∧
    (getTable c8NStoreAfter "story_links").rows =
      [⟨1, [("story_id", .int 1), ("target_type", .text "notification"),
        ("target_id", .int 1)]⟩] := by
  exact ⟨by rfl, by rfl, by rfl⟩

/-- C8 — amended. Delete performs the polymorphic story-link cleanup for the
kinds `entity`, `document` and `method` only (not `notification`): for
those kinds, after a successful delete no story link references
`(kind, i)` where `i` is the id of the natural-key-matched row. -/
theorem C8_theorem (store : Store) (obj : Rec) (kind : String) (schema : SchemaDefinition)
    (resolved : List (String × JVal)) (i : Nat) (store2 : Store)
    (hkind : kind = "entity" ∨ kind = "document" ∨ kind = "method")
    (hschema : objGet SCHEMAS kind = some schema)
    (hres : resolveFks store schema.fks obj = .ok resolved)
    (hfound : selectIdWhere store schema.table (delWhere schema resolved obj) = some i)
    (hdel : del SCHEMAS store kind obj = .ok store2) :
    ∀ r ∈ (getTable store2 "story_links").rows,
      matchesWhere r [("target_type", .text kind), ("target_id", .int (i : Int))] = false := by
  intro r hr
  unfold del at hdel
  rw [hschema] at hdel
  simp only [bind, Except.bind, hres] at hdel
  by_cases hW : (delWhere schema resolved obj).isEmpty
  · rw [if_pos hW] at hdel
    exact absurd hdel (by simp)
  · rw [if_neg hW] at hdel
    have htab : schema.table ≠ "story_links" := by
      rcases hkind with h | h | h <;> subst h
      · rw [show objGet SCHEMAS "entity" = some entitySchema from rfl] at hschema
        injection hschema with hs2
        rw [← hs2]
        decide
      · rw [show objGet SCHEMAS "document" = some documentSchema from rfl] at hschema
        injection hschema with hs2
        rw [← hs2]
        decide
      · rw [show objGet SCHEMAS "method" = some methodSchema from rfl] at hschema
        injection hschema with hs2
        rw [← hs2]
        decide
    have hcond : ((kind == "entity") || (kind == "document") || (kind == "method")) = true := by
      rcases hkind with h | h | h <;> subst h <;> decide
    rw [if_pos hcond, hfound] at hdel
    have hst : store2 =
        deleteWhere (deleteWhere store "story_links"
          [("target_type", .text kind), ("target_id", .int (i : Int))])
          schema.table (delWhere schema resolved obj) := by
      have := hdel
      simp only [pure, Except.pure] at this
      exact (Except.ok.inj this).symm
    rw [hst] at hr
    rw [getTable_deleteWhere_ne _ _ _ _ (Ne.symm htab)] at hr
    exact mem_deleteWhere_not_matches _ _ _ _ hr

/-- C8 — witness: deleting entity `Room` first removes every story link
targeting `(entity, 1)`, so none survives. -/
theorem C8_witness :
    ((getTable c8EStoreAfter "story_links").rows.all (fun r =>
      !(matchesWhere r [("target_type", .text "entity"),
        ("target_id", .int ((1 : Nat) : Int))]))) = true := by
  have h := C8_theorem c8EStore [("name", .str "Room")] "entity" entitySchema [] 1 c8EStoreAfter
    (Or.inl rfl) (by rfl) (by rfl) (by rfl) (by rfl)
  rw [List.all_eq_true]
  intro r hr
  rw [h r hr]
  rfl

/-- C10 — witness: the dot-free lookup returns the first stored method with
that name (id 7), ignoring the owning entity. -/
theorem C10_witness : resolveTarget c10Store "method" "go" = .ok 7 := by
  have h := (C10_theorem c10Store "go").1 (by rfl)
  rw [h]
  rfl

end Easy
